import Mathlib

/-!
Shallow embedding of the stack persistence engine of `src/stack.rs`
(StGit fork), together with theorems settling the frozen claims about its
specification.  Pure functions of the Rust source are translated to Lean
functions; the object store (git2 `Repository`) is modelled as an explicit
environment plus a write log threaded through the snapshot writer.
-/

namespace StGit

/-! ## Object identifiers

git2 `Oid` is a 160-bit (20-byte) object id.  `Oid::from_str` parses up to
40 hexadecimal characters (case insensitive) into a zero-initialised id,
i.e. a short string is zero-padded on the right; any non-hex character or a
length above 40 is an error.  `Display` prints exactly 40 lowercase hex
digits. -/

abbrev OID_BOUND : Nat := 16 ^ 40

abbrev Oid := { n : Nat // n < OID_BOUND }

/-- Build an `Oid` from a natural number (reduced mod 2^160). -/
def mkOid (n : Nat) : Oid :=
  ⟨n % OID_BOUND, Nat.mod_lt _ (by norm_num)⟩

/-- Lowercase hex digit for a nibble. -/
def hexDigitChar (n : Nat) : Char :=
  if n < 10 then Char.ofNat (48 + n) else Char.ofNat (87 + n)

/-- Value of a hex character, accepting `0-9`, `a-f` and `A-F` as
libgit2 `git_oid_fromstrn` does. -/
def hexCharVal (c : Char) : Option Nat :=
  if 48 ≤ c.toNat ∧ c.toNat ≤ 57 then some (c.toNat - 48)
  else if 97 ≤ c.toNat ∧ c.toNat ≤ 102 then some (c.toNat - 87)
  else if 65 ≤ c.toNat ∧ c.toNat ≤ 70 then some (c.toNat - 55)
  else none

/-- Big-endian hex digits of `n`, exactly `w` characters wide. -/
def natToHex : Nat → Nat → List Char
  | 0, _ => []
  | w + 1, n => natToHex w (n / 16) ++ [hexDigitChar (n % 16)]

/-- `Display` for `Oid`: 40 lowercase hex digits. -/
def oidHex (o : Oid) : String :=
  ⟨natToHex 40 o.val⟩

/-- Accumulating hex parser; fails on the first non-hex character. -/
def parseHexChars : List Char → Nat → Option Nat
  | [], acc => some acc
  | c :: rest, acc =>
    match hexCharVal c with
    | some v => parseHexChars rest (acc * 16 + v)
    | none => none

/-- `Oid::from_str` (libgit2 `git_oid_fromstrn` on a zeroed id): at most
40 hex characters, zero-padded on the right. -/
def oidFromStr (s : String) : Option Oid :=
  if s.toList.length ≤ 40 then
    match parseHexChars s.toList 0 with
    | some v => some (mkOid (v * 16 ^ (40 - s.toList.length)))
    | none => none
  else none

theorem natToHex_length (w n : Nat) : (natToHex w n).length = w := by
  induction w generalizing n with
  | zero => rfl
  | succ w ih => simp [natToHex, ih]

theorem parseHexChars_append (xs ys : List Char) (acc : Nat) :
    parseHexChars (xs ++ ys) acc =
      match parseHexChars xs acc with
      | some a => parseHexChars ys a
      | none => none := by
  induction xs generalizing acc with
  | nil => simp [parseHexChars]
  | cons c rest ih =>
    simp only [List.cons_append, parseHexChars]
    cases hexCharVal c with
    | some v => exact ih _
    | none => rfl

theorem hexCharVal_hexDigitChar : ∀ n, n < 16 → hexCharVal (hexDigitChar n) = some n := by
  decide

theorem mod_pow_succ_base16 (n w : Nat) :
    n % 16 ^ (w + 1) = (n / 16 % 16 ^ w) * 16 + n % 16 := by
  have h16 : (0:Nat) < 16 := by norm_num
  have hp : (0:Nat) < 16 ^ w := Nat.pos_pow_of_pos w h16
  have hkey : n = 16 ^ (w + 1) * (n / 16 / 16 ^ w) + ((n / 16 % 16 ^ w) * 16 + n % 16) := by
    have h1 : 16 * (n / 16) + n % 16 = n := Nat.div_add_mod n 16
    have h2 : 16 ^ w * (n / 16 / 16 ^ w) + n / 16 % 16 ^ w = n / 16 := Nat.div_add_mod (n / 16) (16 ^ w)
    calc n = 16 * (n / 16) + n % 16 := h1.symm
      _ = 16 * (16 ^ w * (n / 16 / 16 ^ w) + n / 16 % 16 ^ w) + n % 16 := by rw [h2]
      _ = 16 ^ (w + 1) * (n / 16 / 16 ^ w) + ((n / 16 % 16 ^ w) * 16 + n % 16) := by
          rw [pow_succ]; ring
  have hlt : (n / 16 % 16 ^ w) * 16 + n % 16 < 16 ^ (w + 1) := by
    have h1 : n / 16 % 16 ^ w < 16 ^ w := Nat.mod_lt _ hp
    have h2 : n % 16 < 16 := Nat.mod_lt _ h16
    have h3 : (n / 16 % 16 ^ w) * 16 + n % 16 < 16 ^ w * 16 := by
      have : (n / 16 % 16 ^ w) * 16 + 16 ≤ 16 ^ w * 16 := by
        have := Nat.succ_le_of_lt h1
        calc (n / 16 % 16 ^ w) * 16 + 16 = (n / 16 % 16 ^ w + 1) * 16 := by ring
          _ ≤ 16 ^ w * 16 := Nat.mul_le_mul_right 16 this
      omega
    calc (n / 16 % 16 ^ w) * 16 + n % 16 < 16 ^ w * 16 := h3
      _ = 16 ^ (w + 1) := by rw [pow_succ]
  conv_lhs => rw [hkey]
  rw [Nat.mul_add_mod, Nat.mod_eq_of_lt hlt]

theorem parseHexChars_natToHex (w : Nat) :
    ∀ n acc, parseHexChars (natToHex w n) acc = some (acc * 16 ^ w + n % 16 ^ w) := by
  induction w with
  | zero =>
    intro n acc
    simp [natToHex, parseHexChars, Nat.mod_one]
  | succ w ih =>
    intro n acc
    rw [natToHex, parseHexChars_append, ih]
    have hm : n % 16 < 16 := Nat.mod_lt _ (by norm_num)
    simp only [parseHexChars, hexCharVal_hexDigitChar _ hm]
    rw [mod_pow_succ_base16]
    congr 1
    rw [pow_succ]
    ring

theorem toList_mk (cs : List Char) : String.toList ⟨cs⟩ = cs := rfl

theorem oidFromStr_oidHex (o : Oid) : oidFromStr (oidHex o) = some o := by
  have hlist : (oidHex o).toList = natToHex 40 o.val := toList_mk _
  have hlen : (oidHex o).toList.length = 40 := by
    rw [hlist]; exact natToHex_length 40 o.val
  have hmod : o.val % 16 ^ 40 = o.val := Nat.mod_eq_of_lt o.property
  have hparse : parseHexChars (oidHex o).toList 0 = some o.val := by
    rw [hlist]
    have h := parseHexChars_natToHex 40 o.val 0
    rw [h, Nat.zero_mul, Nat.zero_add, hmod]
  rw [oidFromStr, if_pos (by rw [hlen]), hlen, hparse]
  show some (mkOid (o.val * 16 ^ (40 - 40))) = some o
  have h1 : o.val * 16 ^ (40 - 40) = o.val := by norm_num
  rw [h1]
  exact congrArg some (Subtype.ext hmod)

/-! ## JSON values and codec errors

`serde_json` is modelled at the value level: `Json` is the document tree a
`stack.json` blob parses to.  Objects are association lists (serde feeds
entries to the visitor in the order the map yields them). -/

inductive Json where
  | null : Json
  | bool (b : Bool) : Json
  | int (n : Int) : Json
  | str (s : String) : Json
  | arr (elems : List Json) : Json
  | obj (fields : List (String × Json)) : Json

/-- Failure modes of the load path of `stack.rs`.

The repository's `error.rs` is not part of the sources given; the
constructors here model the concrete failure each site in `stack.rs`
produces: serde errors (`missingField`/`invalidType`/`duplicateField`),
the version gate at `Stack::deserialize` which raises
`invalid_value(Unexpected::Signed(found), &"5")` — the spec's
`UnsupportedStackVersion(found)` —, and `panicked`, which records that the
Rust code aborts with a panic (`BTreeMap` indexing miss or
`Option/Result::unwrap` on a malformed object id) instead of returning an
error. -/
inductive Err where
  | missingField (f : String) : Err
  | invalidType (f : String) : Err
  | duplicateField (f : String) : Err
  | unsupportedStackVersion (found : Int) : Err
  | panicked : Err
  | gitNotFound : Err
  | noParent : Err
  | metadataNotFound : Err
  | nonUtf8Name : Err
  | stackAlreadyInitialized (branch : String) : Err
  | headDetached : Err
deriving DecidableEq

/-! ## The stack model (`struct Stack`, stack.rs lines 14-25) -/

/-- `PatchDescriptor { oid: Oid }`. -/
structure PatchDescriptor where
  oid : Oid
deriving DecidableEq

/-- `struct Stack`: queues, patch table (a `BTreeMap`, modelled as an
association list sorted by key), branch head and previous snapshot link. -/
structure Stack where
  prev : Option Oid
  head : Oid
  applied : List String
  unapplied : List String
  hidden : List String
  patches : List (String × PatchDescriptor)
deriving DecidableEq

namespace Stack

/-- `Stack::new` (stack.rs lines 28-37). -/
def new (head : Oid) : Stack :=
  { prev := none, head := head, applied := [], unapplied := [], hidden := [], patches := [] }

/-- `Stack::all_patches`: `applied` then `unapplied` then `hidden`
(stack.rs lines 62-69). -/
def allPatches (s : Stack) : List String :=
  s.applied ++ s.unapplied ++ s.hidden

/-- Lookup in the `patches` table; `none` corresponds to the Rust
`BTreeMap` index operator panicking. -/
def patchOid? (s : Stack) (name : String) : Option Oid :=
  (s.patches.lookup name).map PatchDescriptor.oid

/-- `Stack::top` (stack.rs lines 71-77): the commit of the last applied
patch, else `head`.  `none` models the index panic on a missing key. -/
def top? (s : Stack) : Option Oid :=
  match s.applied.getLast? with
  | some patchName => s.patchOid? patchName
  | none => some s.head

/-- Half of invariant 1 used by the lookups: every queue name is a key of
the patch table. -/
def KeysCovered (s : Stack) : Prop :=
  ∀ n ∈ s.allPatches, (s.patchOid? n).isSome

instance (s : Stack) : Decidable (KeysCovered s) :=
  inferInstanceAs (Decidable (∀ n ∈ s.allPatches, (s.patchOid? n).isSome))

end Stack

/-! ## Codec: `impl serde::Serialize for Stack` (stack.rs lines 324-369) -/

/-- The serializer builds a `RawStackState` whose `version` field is the
STRING `"5"`, converts ids with `to_string` (40 lowercase hex digits) and
emits fields in declaration order; `patches` is iterated in `BTreeMap`
(sorted) order. -/
def encodeJson (s : Stack) : Json :=
  .obj
    [("version", .str "5"),
     ("prev", match s.prev with | some o => .str (oidHex o) | none => .null),
     ("head", .str (oidHex s.head)),
     ("applied", .arr (s.applied.map .str)),
     ("unapplied", .arr (s.unapplied.map .str)),
     ("hidden", .arr (s.hidden.map .str)),
     ("patches", .obj (s.patches.map fun p => (p.1, .obj [("oid", .str (oidHex p.2.oid))])))]

/-- `encodeJson` with the `version` entry replaced by the integer `5` —
the only repair under which the document becomes acceptable to
`Stack::deserialize`, which reads `version` as an `i64`. -/
def encodeJsonFixedVersion (s : Stack) : Json :=
  .obj
    [("version", .int 5),
     ("prev", match s.prev with | some o => .str (oidHex o) | none => .null),
     ("head", .str (oidHex s.head)),
     ("applied", .arr (s.applied.map .str)),
     ("unapplied", .arr (s.unapplied.map .str)),
     ("hidden", .arr (s.hidden.map .str)),
     ("patches", .obj (s.patches.map fun p => (p.1, .obj [("oid", .str (oidHex p.2.oid))])))]

/-! ## Codec: `impl serde::Deserialize for Stack` (stack.rs lines 266-322)

The derived deserializer of the intermediate `RawStackState` is modelled
field by field: entries are visited in order, unknown fields are ignored
(no `deny_unknown_fields`), duplicates are an error, a missing `Option`
field becomes `None`, any other missing field is an error. -/

/-- `RawPatchDescriptor { oid: String }`. -/
structure RawPatchDescriptor where
  oid : String
deriving DecidableEq

/-- `RawStackState` (stack.rs lines 278-287): `version` is an `i64`;
`patches` is a `BTreeMap` modelled as a sorted association list. -/
structure RawStackState where
  version : Int
  prev : Option String
  head : String
  applied : List String
  unapplied : List String
  hidden : List String
  patches : List (String × RawPatchDescriptor)
deriving DecidableEq

/-- Lexicographic strict order on char lists: the order Rust's `Ord` for
`String` induces (byte order on UTF-8 agrees with scalar-value order). -/
def charListLt : List Char → List Char → Bool
  | [], [] => false
  | [], _ :: _ => true
  | _ :: _, [] => false
  | a :: moreA, b :: moreB =>
    if a < b then true
    else if b < a then false
    else charListLt moreA moreB

/-- Rust `String` order. -/
def strLt (a b : String) : Bool :=
  charListLt a.toList b.toList

theorem charListLt_irrefl : ∀ cs, charListLt cs cs = false := by
  intro cs
  induction cs with
  | nil => rfl
  | cons a rest ih =>
    simp [charListLt, lt_irrefl, ih]

theorem charListLt_asymm : ∀ cs ds, charListLt cs ds = true → charListLt ds cs = false := by
  intro cs
  induction cs with
  | nil => intro ds _; cases ds <;> rfl
  | cons a moreA ih =>
    intro ds h
    cases ds with
    | nil => exact absurd h (by simp [charListLt])
    | cons b moreB =>
      simp only [charListLt] at h ⊢
      by_cases hab : a < b
      · have hba : ¬b < a := lt_asymm hab
        rw [if_neg hba, if_pos hab]
      · rw [if_neg hab] at h
        by_cases hba : b < a
        · rw [if_pos hba] at h; exact absurd h (by simp)
        · rw [if_neg hba] at h
          rw [if_neg hba, if_neg hab]
          exact ih moreB h

theorem strLt_irrefl (a : String) : strLt a a = false :=
  charListLt_irrefl a.toList

theorem strLt_asymm {a b : String} (h : strLt a b = true) : strLt b a = false :=
  charListLt_asymm a.toList b.toList h

theorem strLt_ne {a b : String} (h : strLt a b = true) : b ≠ a := by
  intro he
  subst he
  rw [strLt_irrefl] at h
  exact Bool.noConfusion h

/-- `BTreeMap::insert`: keep keys strictly sorted, replace on equality. -/
def mapInsert {α : Type} (m : List (String × α)) (k : String) (v : α) : List (String × α) :=
  match m with
  | [] => [(k, v)]
  | (k0, v0) :: rest =>
    if strLt k k0 then (k, v) :: (k0, v0) :: rest
    else if k = k0 then (k, v) :: rest
    else (k0, v0) :: mapInsert rest k v

/-- Keys of the patch table are strictly sorted in the Rust string order —
the representation invariant of the Rust `BTreeMap`. -/
def Stack.MapSorted (s : Stack) : Prop :=
  s.patches.Pairwise (fun a b => strLt a.1 b.1 = true)

instance (s : Stack) : Decidable s.MapSorted :=
  inferInstanceAs (Decidable (s.patches.Pairwise _))

def readStringsList (field : String) : List Json → Except Err (List String)
  | [] => .ok []
  | .str s :: rest => do
    let tail ← readStringsList field rest
    .ok (s :: tail)
  | _ :: _ => .error (.invalidType field)

/-- Deserialize a `Vec<String>` field: the value must be an array of
strings. -/
def readStrings (field : String) : Json → Except Err (List String)
  | .arr elems => readStringsList field elems
  | _ => .error (.invalidType field)

def readPatchDescriptorGo : List (String × Json) → Option String →
    Except Err RawPatchDescriptor
  | [], none => .error (.missingField "oid")
  | [], some s => .ok ⟨s⟩
  | (k, v) :: rest, acc =>
    if k = "oid" then
      match acc with
      | some _ => .error (.duplicateField "oid")
      | none =>
        match v with
        | .str s => readPatchDescriptorGo rest (some s)
        | _ => .error (.invalidType "oid")
    else readPatchDescriptorGo rest acc

/-- Derived deserializer of `RawPatchDescriptor`: an object with a
mandatory string field `oid`; unknown fields ignored. -/
def readPatchDescriptor (j : Json) : Except Err RawPatchDescriptor :=
  match j with
  | .obj fields => readPatchDescriptorGo fields none
  | _ => .error (.invalidType "RawPatchDescriptor")

def readRawPatchesGo : List (String × Json) → List (String × RawPatchDescriptor) →
    Except Err (List (String × RawPatchDescriptor))
  | [], acc => .ok acc
  | (k, v) :: rest, acc => do
    let d ← readPatchDescriptor v
    readRawPatchesGo rest (mapInsert acc k d)

/-- Deserialize the `patches` field: a map from name to
`RawPatchDescriptor`, inserted entry by entry into a fresh `BTreeMap`. -/
def readRawPatches (j : Json) : Except Err (List (String × RawPatchDescriptor)) :=
  match j with
  | .obj fields => readRawPatchesGo fields []
  | _ => .error (.invalidType "patches")

/-- Partially filled `RawStackState` during the visit of the object's
entries. -/
structure PartialRaw where
  version : Option Int := none
  prev : Option (Option String) := none
  head : Option String := none
  applied : Option (List String) := none
  unapplied : Option (List String) := none
  hidden : Option (List String) := none
  patches : Option (List (String × RawPatchDescriptor)) := none

/-- Visit one entry of the top-level object. -/
def visitRawEntry (acc : PartialRaw) (k : String) (v : Json) : Except Err PartialRaw :=
  if k = "version" then
    match acc.version with
    | some _ => .error (.duplicateField "version")
    | none =>
      match v with
      | .int n => .ok { acc with version := some n }
      | _ => .error (.invalidType "version")
  else if k = "prev" then
    match acc.prev with
    | some _ => .error (.duplicateField "prev")
    | none =>
      match v with
      | .null => .ok { acc with prev := some none }
      | .str s => .ok { acc with prev := some (some s) }
      | _ => .error (.invalidType "prev")
  else if k = "head" then
    match acc.head with
    | some _ => .error (.duplicateField "head")
    | none =>
      match v with
      | .str s => .ok { acc with head := some s }
      | _ => .error (.invalidType "head")
  else if k = "applied" then
    match acc.applied with
    | some _ => .error (.duplicateField "applied")
    | none => do
      let xs ← readStrings "applied" v
      .ok { acc with applied := some xs }
  else if k = "unapplied" then
    match acc.unapplied with
    | some _ => .error (.duplicateField "unapplied")
    | none => do
      let xs ← readStrings "unapplied" v
      .ok { acc with unapplied := some xs }
  else if k = "hidden" then
    match acc.hidden with
    | some _ => .error (.duplicateField "hidden")
    | none => do
      let xs ← readStrings "hidden" v
      .ok { acc with hidden := some xs }
  else if k = "patches" then
    match acc.patches with
    | some _ => .error (.duplicateField "patches")
    | none => do
      let m ← readRawPatches v
      .ok { acc with patches := some m }
  else
    .ok acc

def visitRawEntries : List (String × Json) → PartialRaw → Except Err PartialRaw
  | [], acc => .ok acc
  | (k, v) :: rest, acc => do
    let acc2 ← visitRawEntry acc k v
    visitRawEntries rest acc2

/-- Finalization of the visit: a missing `Option` field (`prev`) defaults
to `None`, any other missing field is an error. -/
def rawDecodeFinish (p : PartialRaw) : Except Err RawStackState :=
  match p.version with
    | none => .error (.missingField "version")
    | some version =>
      match p.head with
      | none => .error (.missingField "head")
      | some head =>
        match p.applied with
        | none => .error (.missingField "applied")
        | some applied =>
          match p.unapplied with
          | none => .error (.missingField "unapplied")
          | some unapplied =>
            match p.hidden with
            | none => .error (.missingField "hidden")
            | some hidden =>
              match p.patches with
              | none => .error (.missingField "patches")
              | some patches =>
                .ok { version := version, prev := p.prev.getD none, head := head,
                      applied := applied, unapplied := unapplied, hidden := hidden,
                      patches := patches }

/-- Derived `RawStackState::deserialize` on a JSON value: the document
must be an object; its entries are visited in order and the result is
finalized by `rawDecodeFinish`. -/
def rawDecode (j : Json) : Except Err RawStackState :=
  match j with
  | .obj fields => visitRawEntries fields {} >>= rawDecodeFinish
  | _ => .error (.invalidType "RawStackState")

/-- The `for (patch_name, raw_patch_desc) in raw.patches` loop of
`Stack::deserialize` (stack.rs lines 307-312): each oid string is parsed
with `Oid::from_str(..).unwrap()` — a panic on malformed input — and
inserted into a fresh `BTreeMap`. -/
def buildPatches : List (String × RawPatchDescriptor) →
    List (String × PatchDescriptor) → Except Err (List (String × PatchDescriptor))
  | [], acc => .ok acc
  | (name, d) :: rest, acc =>
    match oidFromStr d.oid with
    | some oid => buildPatches rest (mapInsert acc name ⟨oid⟩)
    | none => .error .panicked

/-- The body of `Stack::deserialize` after the raw state is obtained: the
version gate, then oid parsing via `unwrap`. -/
def decodeFinish (raw : RawStackState) : Except Err Stack :=
  if raw.version ≠ 5 then
    .error (.unsupportedStackVersion raw.version)
  else
    (match raw.prev with
     | some oidStr =>
       match oidFromStr oidStr with
       | some o => Except.ok (some o)
       | none => Except.error Err.panicked
     | none => Except.ok none) >>= fun prev =>
    (match oidFromStr raw.head with
     | some o => Except.ok o
     | none => Except.error Err.panicked) >>= fun head =>
    buildPatches raw.patches [] >>= fun patches =>
    .ok { prev := prev, head := head, applied := raw.applied,
          unapplied := raw.unapplied, hidden := raw.hidden, patches := patches }

/-- `Stack::deserialize` (stack.rs lines 266-322). -/
def decodeStack (j : Json) : Except Err Stack :=
  rawDecode j >>= decodeFinish

/-! ## Parent-set computation of `Stack::commit` (stack.rs lines 111-128)

The Rust code uses a `HashSet<Oid>`; it is modelled as a duplicate-free
list where `insert` appends when absent.  The claims proved about it only
concern membership and cardinality, neither of which depends on the
iteration order the `HashSet` would produce. -/

def setInsert (l : List Oid) (x : Oid) : List Oid :=
  if x ∈ l then l else l ++ [x]

def setRemove (l : List Oid) (x : Oid) : List Oid :=
  l.filter (fun y => y ≠ x)

/-- Insert `self.patches[name].oid` for each name; `none` models the map
index panic. -/
def insertOids (s : Stack) : List String → List Oid → Option (List Oid)
  | [], acc => some acc
  | n :: rest, acc =>
    match s.patchOid? n with
    | some o => insertOids s rest (setInsert acc o)
    | none => none

/-- Remove `prev_state.patches[name].oid` for each name of the previous
snapshot; `none` models the map index panic. -/
def removeOids (prevState : Stack) : List String → List Oid → Option (List Oid)
  | [], acc => some acc
  | n :: rest, acc =>
    match prevState.patchOid? n with
    | some o => removeOids prevState rest (setRemove acc o)
    | none => none

/-- The full parent set before fanout reduction: insert `head`, `top()`,
the unapplied and hidden patch commits, and if `prev` is set insert it and
subtract every patch commit of the loaded previous snapshot
(`prev_state_tree.unwrap()` — the unwrap is modelled by requiring the
`prevState` argument when `s.prev` is set). -/
def parentOidsOf (s : Stack) (prevState : Option Stack) : Option (List Oid) :=
  s.top? >>= fun t =>
  insertOids s s.unapplied (setInsert (setInsert [] s.head) t) >>= fun acc1 =>
  insertOids s s.hidden acc1 >>= fun acc2 =>
  match s.prev with
  | some prevOid => prevState >>= fun ps => removeOids ps ps.allPatches (setInsert acc2 prevOid)
  | none => some acc2

/-! ## The object store environment and the write log

`git2::Repository` is modelled by an environment `Env` of read accessors
plus a log of writes.  Blob and tree writes are content-addressed through
`Env` functions; commit writes receive fresh ids from a supply (two
commits written in one invocation never have equal content, so a supply is
an adequate model of content addressing). -/

/-- One write performed against the object store. -/
inductive Write where
  | blobStr (content : String) (oid : Oid) : Write
  | blobJson (content : Json) (oid : Oid) : Write
  | tree (entries : List (String × Oid)) (oid : Oid) : Write
  | commit (updateRef : Option String) (message : String) (tree : Oid)
      (parents : List Oid) (oid : Oid) : Write

def Write.isCommit : Write → Bool
  | .commit _ _ _ _ _ => true
  | _ => false

def Write.oidOf : Write → Oid
  | .blobStr _ o => o
  | .blobJson _ o => o
  | .tree _ o => o
  | .commit _ _ _ _ o => o

def Write.parentCount : Write → Nat
  | .commit _ _ _ ps _ => ps.length
  | _ => 0

def Write.messageOf : Write → String
  | .commit _ m _ _ _ => m
  | _ => ""

def Write.updateRefOf : Write → Option String
  | .commit r _ _ _ _ => r
  | _ => none

/-- A previous snapshot's tree handle: `Tree::get_path` as used by
`make_patch_meta`. -/
structure TreeH where
  getPath : String → Option Oid

/-- A reference, as `initialize` uses it: `shorthand()` (None for
non-UTF-8), `is_branch()`, and the commit it peels to. -/
structure GitRef where
  shorthand : Option String
  isBranch : Bool
  tip : Oid

/-- Read-side of the repository plus the content-addressing and fresh-oid
suppliers for writes. -/
structure Env where
  /-- `repo.find_commit(oid)` succeeds on pre-existing commits. -/
  hasCommit : Oid → Bool
  /-- `commit.parent(0)`: first parent, `none` when there is none. -/
  parent0 : Oid → Option Oid
  /-- `commit.tree_id()`. -/
  treeId : Oid → Oid
  /-- `commit.author()` rendered by `Display`. -/
  authorStr : Oid → String
  /-- The `Date:` payload: chrono's naive local time and offset rendering
  of `commit.time()` (external library formatting). -/
  dateLine : Oid → String
  /-- `repo.find_tree(prev)` followed by `Stack::from_tree`: the previous
  snapshot state and its tree handle, or a load error. -/
  loadPrev : Oid → Except Err (Stack × TreeH)
  /-- Content address of a string blob (`repo.blob`). -/
  blobStrId : String → Oid
  /-- Content address of the `stack.json` blob. -/
  blobJsonId : Json → Oid
  /-- Content address of a tree built from named entries. -/
  treeOf : List (String × Oid) → Oid
  /-- Oid supply for commit writes. -/
  fresh : Nat → Oid
  /-- `repo.head()`. -/
  headRef : Option GitRef
  /-- `repo.resolve_reference_from_short_name`. -/
  resolveShort : String → Option GitRef
  /-- `repo.find_reference(name).is_ok()`. -/
  refExists : String → Bool

/-- Writer state: next fresh commit id and the log of writes. -/
structure WriteSt where
  nextFresh : Nat
  log : List Write

def WriteSt.init : WriteSt := ⟨0, []⟩

/-- `repo.find_commit(oid)?` — succeeds on pre-existing commits and on
commits written earlier in this invocation. -/
def findCommitE (env : Env) (st : WriteSt) (oid : Oid) : Except Err Unit :=
  if env.hasCommit oid || st.log.any (fun w => w.isCommit && w.oidOf == oid) then .ok ()
  else .error .gitNotFound

def writeBlobStr (env : Env) (st : WriteSt) (content : String) : Oid × WriteSt :=
  let oid := env.blobStrId content
  (oid, { st with log := st.log ++ [Write.blobStr content oid] })

def writeBlobJson (env : Env) (st : WriteSt) (content : Json) : Oid × WriteSt :=
  let oid := env.blobJsonId content
  (oid, { st with log := st.log ++ [Write.blobJson content oid] })

def writeTree (env : Env) (st : WriteSt) (entries : List (String × Oid)) : Oid × WriteSt :=
  let oid := env.treeOf entries
  (oid, { st with log := st.log ++ [Write.tree entries oid] })

/-- `repo.commit(update_ref, &sig, &sig, message, &tree, &parents)`. -/
def writeCommit (env : Env) (st : WriteSt) (updateRef : Option String) (message : String)
    (tree : Oid) (parents : List Oid) : Oid × WriteSt :=
  let oid := env.fresh st.nextFresh
  (oid, { nextFresh := st.nextFresh + 1,
          log := st.log ++ [Write.commit updateRef message tree parents oid] })

/-! ## Patch-meta builder (`Stack::make_patch_meta`, stack.rs lines 209-253) -/

/-- The `prev_state.all_patches().any(..)` check: for each previous patch
name the closure indexes `prev_state.patches` (a potential panic, `none`)
before comparing name and oid; `any` short-circuits on the first match. -/
def anyMatching (prevState : Stack) (patchName : String) (oid : Oid) :
    List String → Option Bool
  | [] => some false
  | n :: rest =>
    match prevState.patchOid? n with
    | some prevOid =>
      if n = patchName ∧ prevOid = oid then some true
      else anyMatching prevState patchName oid rest
    | none => none

/-- The rebuild path of `make_patch_meta`: read the patch commit and its
first parent, render the descriptor text, write it as a blob. -/
def buildPatchMeta (env : Env) (st : WriteSt) (oid : Oid) : Except Err (Oid × WriteSt) := do
  let _ ← findCommitE env st oid
  match env.parent0 oid with
  | none => .error .noParent
  | some parent =>
    let content :=
      "Bottom: " ++ oidHex (env.treeId parent) ++ "\n" ++
      "Top:    " ++ oidHex (env.treeId oid) ++ "\n" ++
      "Author: " ++ env.authorStr oid ++ "\n" ++
      "Date:   " ++ env.dateLine oid ++ "\n"
    .ok (writeBlobStr env st content)

/-- `Stack::make_patch_meta`: reuse the previous snapshot's blob when the
same patch (name and oid) exists there and `prev_tree.get_path` succeeds;
on any lookup failure fall back to rebuilding. -/
def Stack.makePatchMeta (s : Stack) (env : Env) (st : WriteSt) (patchName : String) (oid : Oid)
    (prevStateTree : Option (Stack × TreeH)) : Except Err (Oid × WriteSt) :=
  match prevStateTree with
  | some (prevState, prevTree) =>
    match anyMatching prevState patchName oid prevState.allPatches with
    | none => .error .panicked
    | some true =>
      match prevTree.getPath ("patches/" ++ patchName) with
      | some entryId => .ok (entryId, st)
      | none => buildPatchMeta env st oid
    | some false => buildPatchMeta env st oid
  | none => buildPatchMeta env st oid

/-- The loop body of `make_patches_tree`: build the entry list in
`all_patches` order, indexing the patch table (panic on a miss). -/
def Stack.makePatchesEntries (s : Stack) (env : Env)
    (prevStateTree : Option (Stack × TreeH)) :
    List String → WriteSt → List (String × Oid) → Except Err (List (String × Oid) × WriteSt)
  | [], st, acc => .ok (acc, st)
  | n :: rest, st, acc =>
    match s.patchOid? n with
    | none => .error .panicked
    | some oid => do
      let (metaId, st2) ← s.makePatchMeta env st n oid prevStateTree
      s.makePatchesEntries env prevStateTree rest st2 (acc ++ [(n, metaId)])

/-- `Stack::make_patches_tree` (stack.rs lines 192-207). -/
def Stack.makePatchesTree (s : Stack) (env : Env) (st : WriteSt)
    (prevStateTree : Option (Stack × TreeH)) : Except Err (Oid × WriteSt) := do
  let (entries, st2) ← s.makePatchesEntries env prevStateTree s.allPatches st []
  .ok (writeTree env st2 entries)

/-- `Stack::make_tree` (stack.rs lines 171-190): a blob for `stack.json`
(the serde serialization) and the `patches` subtree. -/
def Stack.makeTree (s : Stack) (env : Env) (st : WriteSt)
    (prevStateTree : Option (Stack × TreeH)) : Except Err (Oid × WriteSt) := do
  let (jsonOid, st2) := writeBlobJson env st (encodeJson s)
  let (patchesOid, st3) ← s.makePatchesTree env st2 prevStateTree
  .ok (writeTree env st3 [("stack.json", jsonOid), ("patches", patchesOid)])

/-! ## Fanout reduction and `Stack::commit` (stack.rs lines 79-169) -/

abbrev MAX_PARENTS : Nat := 16

/-- The `while parent_oids.len() > MAX_PARENTS` loop: drain the last
`MAX_PARENTS` ids, write a `"parent grouping"` commit with them as
parents, push the group id. -/
def groupLoop (env : Env) (stateTree : Oid) (parentOids : List Oid) (st : WriteSt) :
    Except Err (List Oid × WriteSt) :=
  if h : parentOids.length > MAX_PARENTS then
    let group := parentOids.drop (parentOids.length - MAX_PARENTS)
    let rest := parentOids.take (parentOids.length - MAX_PARENTS)
    match group.foldlM (fun _ o => findCommitE env st o) () with
    | .error e => .error e
    | .ok () =>
      let (groupOid, st2) := writeCommit env st none "parent grouping" stateTree group
      groupLoop env stateTree (rest ++ [groupOid]) st2
  else .ok (parentOids, st)
termination_by parentOids.length
decreasing_by
  simp_wf
  have h16 : MAX_PARENTS = 16 := rfl
  omega

/-- `loop: parent_commits`: look up every parent before the final write. -/
def checkAll (env : Env) (st : WriteSt) : List Oid → Except Err Unit
  | [] => .ok ()
  | o :: rest => do
    let _ ← findCommitE env st o
    checkAll env st rest

/-- The tail of `Stack::commit` (stack.rs lines 102-168): write the
simplified commit, compute the parent set, reduce fanout, look up every
parent, and write the final commit (simplified parent first). -/
def Stack.commitRest (s : Stack) (env : Env) (updateRef : Option String) (message : String)
    (prevState : Option Stack) (stateTree : Oid) (simplifiedParents : List Oid)
    (st : WriteSt) : Except Err (Oid × WriteSt) :=
  (fun sp : Oid × WriteSt =>
    (match parentOidsOf s prevState with
     | some l => Except.ok l
     | none => Except.error Err.panicked) >>= fun parentOids0 =>
    groupLoop env stateTree parentOids0 sp.2 >>= fun pg =>
    findCommitE env pg.2 sp.1 >>= fun _ =>
    checkAll env pg.2 pg.1 >>= fun _ =>
    Except.ok (writeCommit env pg.2 updateRef message stateTree (sp.1 :: pg.1)))
  (writeCommit env st none message stateTree simplifiedParents)

/-- `Stack::commit` (stack.rs lines 79-169): load the previous state,
build the snapshot tree, compute the simplified commit's parents
(`parent(prev)` when `prev` is set), then `commitRest`. -/
def Stack.commit (s : Stack) (env : Env) (updateRef : Option String) (message : String)
    (st : WriteSt) : Except Err (Oid × WriteSt) :=
  (match s.prev with
   | some previous =>
     (match env.loadPrev previous with
      | .ok pst => Except.ok (some pst)
      | .error e => Except.error e)
   | none => Except.ok none) >>= fun prevStateTree =>
  s.makeTree env st prevStateTree >>= fun p1 =>
  (match s.prev with
   | some prevOid =>
     findCommitE env p1.2 prevOid >>= fun _ =>
     (match env.parent0 prevOid with
      | some gp => Except.ok [gp]
      | none => Except.error Err.noParent)
   | none => Except.ok ([] : List Oid)) >>= fun simplifiedParents =>
  s.commitRest env updateRef message (prevStateTree.map Prod.fst) p1.1 simplifiedParents p1.2

/-! ## Reference binding (`initialize`, stack.rs lines 371-415) -/

def stackRefnameFromBranchShorthand (branchShorthand : String) : String :=
  "refs/stacks/" ++ branchShorthand

/-- `get_branch_ref` (stack.rs lines 390-404). -/
def getBranchRef (env : Env) (branchName : Option String) : Except Err GitRef :=
  match branchName with
  | some name =>
    match env.resolveShort name with
    | some r => .ok r
    | none => .error .gitNotFound
  | none =>
    match env.headRef with
    | none => .error .gitNotFound
    | some h => if h.isBranch then .ok h else .error .headDetached

/-- The `initialize` function of stack.rs (lines 371-384; renamed here
because the Rust name collides with a Lean keyword).  Note the snapshot
head is taken from `repo.head()`, not from the resolved branch
reference. -/
def initStack (env : Env) (st : WriteSt) (branchName : Option String) :
    Except Err WriteSt :=
  getBranchRef env branchName >>= fun branchRef =>
  (match branchRef.shorthand with
   | some sh => Except.ok sh
   | none => Except.error Err.nonUtf8Name) >>= fun branchShorthand =>
  if env.refExists (stackRefnameFromBranchShorthand branchShorthand) then
    .error (.stackAlreadyInitialized branchShorthand)
  else
    (match env.headRef with
     | none => Except.error Err.gitNotFound
     | some h => Except.ok h.tip) >>= fun headTip =>
    (Stack.new headTip).commit env (some (stackRefnameFromBranchShorthand branchShorthand))
      "initialize" st >>= fun p =>
    Except.ok p.2

/-! ## General helper lemmas -/

theorem exbind_ok {α β : Type} (a : α) (f : α → Except Err β) :
    (Except.ok a >>= f) = f a := rfl

theorem exbind_err {α β : Type} (e : Err) (f : α → Except Err β) :
    (Except.error e >>= f : Except Err β) = .error e := rfl

theorem lastMem {α : Type} (l : List α) (a : α) (h : l.getLast? = some a) : a ∈ l := by
  induction l with
  | nil => simp [List.getLast?] at h
  | cons x xs ih =>
    cases hxs : xs with
    | nil =>
      rw [hxs] at h
      simp [List.getLast?] at h
      simp [h]
    | cons y ys =>
      rw [hxs] at ih
      have h2 : (y :: ys).getLast? = some a := by
        rw [hxs] at h
        simpa [List.getLast?_cons_cons] using h
      exact List.mem_cons_of_mem x (ih h2)

/-! ## Sample data used by witnesses and counterexamples -/

def oidA : Oid := mkOid 10
def oidB : Oid := mkOid 11
def oidC : Oid := mkOid 12
def oidP : Oid := mkOid 13

/-- A well-formed sample snapshot: one applied and one unapplied patch. -/
def sampleStack : Stack :=
  { prev := none, head := oidA, applied := ["p1"], unapplied := ["p2"], hidden := [],
    patches := [("p1", ⟨oidB⟩), ("p2", ⟨oidC⟩)] }

/-- A snapshot violating invariant 1: `applied` names a patch absent from
the table. -/
def panicStack : Stack :=
  { prev := none, head := oidA, applied := ["ghost"], unapplied := [], hidden := [],
    patches := [] }

/-! ## C7 — the `top()` law -/

/-- C7: for every snapshot `S`, `top(S)` returns the commit id recorded in
`S.patches` for the last element of `S.applied` when `S.applied` is
nonempty, and returns `S.head` when `S.applied` is empty. -/
theorem top_law (S : Stack) :
    (∀ n o, S.applied.getLast? = some n → S.patchOid? n = some o → S.top? = some o) ∧
    (S.applied = [] → S.top? = some S.head) := by
  constructor
  · intro n o hlast hlook
    simp [Stack.top?, hlast, hlook]
  · intro h
    simp [Stack.top?, h, List.getLast?]

theorem top_law_witness :
    sampleStack.top? = some oidB ∧ (Stack.new oidA).top? = some oidA :=
  ⟨(top_law sampleStack).1 "p1" oidB (by decide)
      (by simp [sampleStack, Stack.patchOid?, List.lookup]),
   (top_law (Stack.new oidA)).2 rfl⟩

/-! ## C10 — the queue-name lookups -/

theorem insertOids_isSome (s : Stack) (names : List String)
    (h : ∀ n ∈ names, (s.patchOid? n).isSome) :
    ∀ acc, (insertOids s names acc).isSome := by
  induction names with
  | nil => intro acc; simp [insertOids]
  | cons n rest ih =>
    intro acc
    have hn : (s.patchOid? n).isSome := h n (List.mem_cons_self n rest)
    cases ho : s.patchOid? n with
    | none => rw [ho] at hn; simp at hn
    | some o =>
      simp only [insertOids, ho]
      exact ih (fun m hm => h m (List.mem_cons_of_mem n hm)) _

theorem buildPatchMeta_no_panic (env : Env) (st : WriteSt) (oid : Oid) :
    buildPatchMeta env st oid ≠ .error .panicked := by
  unfold buildPatchMeta findCommitE
  split
  · rw [exbind_ok]
    cases env.parent0 oid with
    | none => simp
    | some p => simp [writeBlobStr]
  · rw [exbind_err]
    simp

theorem makePatchesEntries_no_panic (s : Stack) (env : Env) (names : List String)
    (h : ∀ n ∈ names, (s.patchOid? n).isSome) :
    ∀ st acc, s.makePatchesEntries env none names st acc ≠ .error .panicked := by
  induction names with
  | nil => intro st acc; simp [Stack.makePatchesEntries]
  | cons n rest ih =>
    intro st acc
    have hn : (s.patchOid? n).isSome := h n (List.mem_cons_self n rest)
    cases ho : s.patchOid? n with
    | none => rw [ho] at hn; simp at hn
    | some oid =>
      simp only [Stack.makePatchesEntries, ho]
      have hmeta : s.makePatchMeta env st n oid none = buildPatchMeta env st oid := rfl
      rw [hmeta]
      cases hb : buildPatchMeta env st oid with
      | error e =>
        rw [exbind_err]
        intro hcontra
        have : e = Err.panicked := by
          injection hcontra
        exact buildPatchMeta_no_panic env st oid (this ▸ hb)
      | ok v =>
        rw [exbind_ok]
        exact ih (fun m hm => h m (List.mem_cons_of_mem n hm)) _ _

/-- C10: `Stack::top`, `Stack::commit` and `Stack::make_patches_tree`
index the patch table by the queue names; when every queue name is a key
of `patches` (half of invariant 1), each lookup succeeds (`top?` is
`some`, the parent-set insertions succeed, and `make_patches_tree` never
stops with the index panic); without that precondition the panic branch is
reachable (`panicStack`). -/
theorem queue_lookups_total :
    (∀ S : Stack, S.KeysCovered →
      (S.top?).isSome ∧
      (∀ acc, (insertOids S S.unapplied acc).isSome) ∧
      (∀ acc, (insertOids S S.hidden acc).isSome) ∧
      (∀ env st acc, S.makePatchesEntries env none S.allPatches st acc ≠ .error .panicked)) ∧
    panicStack.top? = none := by
  constructor
  · intro S hWF
    have happl : ∀ n ∈ S.applied, (S.patchOid? n).isSome := fun n hn =>
      hWF n (by simp [Stack.allPatches, hn])
    have hun : ∀ n ∈ S.unapplied, (S.patchOid? n).isSome := fun n hn =>
      hWF n (by simp [Stack.allPatches, hn])
    have hhid : ∀ n ∈ S.hidden, (S.patchOid? n).isSome := fun n hn =>
      hWF n (by simp [Stack.allPatches, hn])
    refine ⟨?_, insertOids_isSome S _ hun, insertOids_isSome S _ hhid, ?_⟩
    · unfold Stack.top?
      cases hlast : S.applied.getLast? with
      | none => simp
      | some n => exact happl n (lastMem _ _ hlast)
    · intro env st acc
      exact makePatchesEntries_no_panic S env S.allPatches
        (fun n hn => hWF n hn) st acc
  · decide

theorem queue_lookups_total_witness :
    (sampleStack.top?).isSome ∧ (insertOids sampleStack sampleStack.unapplied []).isSome :=
  ⟨(queue_lookups_total.1 sampleStack (by decide)).1,
   (queue_lookups_total.1 sampleStack (by decide)).2.1 []⟩

/-! ## C3 — malformed object ids on decode -/

/-- A `stack.json` document that is well-formed except that `head` is not
valid hexadecimal. -/
def badOidDoc : Json :=
  .obj [("version", .int 5), ("prev", .null), ("head", .str "zzzz"),
        ("applied", .arr []), ("unapplied", .arr []), ("hidden", .arr []),
        ("patches", .obj [])]

/-- C3 (code behaviour at the failing input): a malformed `head` id makes
`Stack::deserialize` abort through `Oid::from_str(..).unwrap()` — a Rust
panic, modelled by `Err.panicked` — instead of returning the
`MalformedPersistedState` error the spec requires (the intended
`map_err` calls are present in the source only as commented-out code,
stack.rs lines 299, 304, 309). -/
theorem malformed_oid_panics : decodeStack badOidDoc = .error .panicked := by
  rfl

/-! ## C2 — version gating -/

/-- Gate helper: is a decode result the version-gate error? -/
def isUnsupportedVersionErr : Except Err Stack → Bool
  | .error (.unsupportedStackVersion _) => true
  | _ => false

/-- C2 (amended): a document whose raw deserialization succeeds with an
integer `version ≠ 5` fails with the version-gate error
(`invalid_value(Unexpected::Signed(found), &"5")`, the spec's
`UnsupportedStackVersion`) carrying the found value.  A `version`
presented as a string never reaches the gate: raw deserialization itself
fails with a type error (see the counterexample at `"version": "4"`). -/
theorem version_gate (j : Json) (raw : RawStackState) (hraw : rawDecode j = .ok raw)
    (hv : raw.version ≠ 5) :
    decodeStack j = .error (.unsupportedStackVersion raw.version) := by
  unfold decodeStack decodeFinish
  rw [hraw, exbind_ok, if_pos hv]

/-- An otherwise well-formed document carrying integer version `4`. -/
def version4Doc : Json :=
  .obj [("version", .int 4), ("prev", .null), ("head", .str (oidHex oidA)),
        ("applied", .arr []), ("unapplied", .arr []), ("hidden", .arr []),
        ("patches", .obj [])]

/-- The raw state `version4Doc` deserializes to. -/
def version4Raw : RawStackState :=
  { version := 4, prev := none, head := oidHex oidA,
    applied := [], unapplied := [], hidden := [], patches := [] }

theorem version_gate_witness :
    rawDecode version4Doc = .ok version4Raw ∧
    decodeStack version4Doc = .error (.unsupportedStackVersion 4) :=
  ⟨rfl, version_gate version4Doc version4Raw rfl (by decide)⟩

/-- An otherwise well-formed document whose version is the STRING `"4"`. -/
def versionStrDoc : Json :=
  .obj [("version", .str "4"), ("prev", .null), ("head", .str (oidHex oidA)),
        ("applied", .arr []), ("unapplied", .arr []), ("hidden", .arr []),
        ("patches", .obj [])]

/-- C2 counterexample: a string version fails with the serde type error
for the `version` field, not with the version-gate
(`UnsupportedStackVersion`) error the claim names. -/
theorem version_str_not_gate_error :
    decodeStack versionStrDoc = .error (.invalidType "version") ∧
    isUnsupportedVersionErr (decodeStack versionStrDoc) = false :=
  ⟨rfl, rfl⟩

/-! ## C1 — codec round trip -/

def emptyStackEx : Stack := Stack.new oidA

/-- Is a decode result a success? -/
def decodeIsOk : Except Err Stack → Bool
  | .ok _ => true
  | .error _ => false

/-- C1 counterexample: the encoder emits `version` as the string `"5"`
(stack.rs line 358) while the decoder reads an `i64`, so decoding the
encoder's own output fails — the round trip does not hold as claimed. -/
theorem roundtrip_fails_on_emitted_version :
    decodeStack (encodeJson emptyStackEx) = .error (.invalidType "version") ∧
    decodeIsOk (decodeStack (encodeJson emptyStackEx)) = false :=
  ⟨rfl, rfl⟩

/-! ### Round trip after repairing the version field -/

theorem mapInsert_append {α : Type} (m : List (String × α)) (k : String) (v : α)
    (h : ∀ p ∈ m, strLt p.1 k = true) : mapInsert m k v = m ++ [(k, v)] := by
  induction m with
  | nil => rfl
  | cons p rest ih =>
    obtain ⟨k0, v0⟩ := p
    have hk0 : strLt k0 k = true := h (k0, v0) (List.mem_cons_self _ _)
    have hnlt : ¬strLt k k0 = true := by
      rw [strLt_asymm hk0]
      exact Bool.noConfusion
    have hne : ¬k = k0 := strLt_ne hk0
    simp only [mapInsert, if_neg hnlt, if_neg hne, List.cons_append, List.cons.injEq, true_and]
    exact ih (fun q hq => h q (List.mem_cons_of_mem _ hq))

theorem readStringsList_map (field : String) (names : List String) :
    readStringsList field (names.map .str) = .ok names := by
  induction names with
  | nil => rfl
  | cons n rest ih =>
    simp only [List.map_cons, readStringsList, ih, exbind_ok]

theorem readStrings_map (field : String) (names : List String) :
    readStrings field (.arr (names.map .str)) = .ok names :=
  readStringsList_map field names

/-- The shape of an encoded patch entry's value. -/
theorem readPatchDescriptor_enc (h : String) :
    readPatchDescriptor (.obj [("oid", .str h)]) = .ok ⟨h⟩ := rfl

theorem readRawPatchesGo_sorted (ps : List (String × PatchDescriptor)) :
    ∀ acc : List (String × RawPatchDescriptor),
      (∀ a ∈ acc, ∀ b ∈ ps, strLt a.1 b.1 = true) →
      ps.Pairwise (fun a b => strLt a.1 b.1 = true) →
      readRawPatchesGo (ps.map fun p => (p.1, .obj [("oid", .str (oidHex p.2.oid))])) acc =
        .ok (acc ++ ps.map fun p => (p.1, ⟨oidHex p.2.oid⟩)) := by
  induction ps with
  | nil => intro acc _ _; simp [readRawPatchesGo]
  | cons p rest ih =>
    intro acc hacc hsort
    obtain ⟨k, d⟩ := p
    simp only [List.map_cons, readRawPatchesGo, readPatchDescriptor_enc, exbind_ok]
    have hins : mapInsert acc k (⟨oidHex d.oid⟩ : RawPatchDescriptor)
        = acc ++ [(k, ⟨oidHex d.oid⟩)] :=
      mapInsert_append acc k _ (fun a ha => hacc a ha (k, d) (List.mem_cons_self _ _))
    rw [hins]
    have hrest := ih (acc ++ [(k, ⟨oidHex d.oid⟩)])
      (by
        intro a ha b hb
        rcases List.mem_append.mp ha with ha1 | ha2
        · exact hacc a ha1 b (List.mem_cons_of_mem _ hb)
        · have : a = (k, (⟨oidHex d.oid⟩ : RawPatchDescriptor)) := by simpa using ha2
          subst this
          exact (List.pairwise_cons.mp hsort).1 b hb)
      (List.pairwise_cons.mp hsort).2
    rw [hrest]
    simp

theorem readRawPatches_enc (S : Stack) (hsorted : S.MapSorted) :
    readRawPatches (.obj (S.patches.map fun p => (p.1, .obj [("oid", .str (oidHex p.2.oid))]))) =
      .ok (S.patches.map fun p => (p.1, ⟨oidHex p.2.oid⟩)) := by
  show readRawPatchesGo (S.patches.map fun p =>
    (p.1, Json.obj [("oid", Json.str (oidHex p.2.oid))])) [] = _
  rw [readRawPatchesGo_sorted S.patches [] (by intro a ha; simp at ha) hsorted]
  simp

theorem buildPatches_sorted (ps : List (String × PatchDescriptor)) :
    ∀ acc : List (String × PatchDescriptor),
      (∀ a ∈ acc, ∀ b ∈ ps, strLt a.1 b.1 = true) →
      ps.Pairwise (fun a b => strLt a.1 b.1 = true) →
      buildPatches (ps.map fun p => (p.1, ⟨oidHex p.2.oid⟩)) acc = .ok (acc ++ ps) := by
  induction ps with
  | nil => intro acc _ _; simp [buildPatches]
  | cons p rest ih =>
    intro acc hacc hsort
    obtain ⟨k, d⟩ := p
    simp only [List.map_cons, buildPatches, oidFromStr_oidHex]
    have hins : mapInsert acc k (⟨d.oid⟩ : PatchDescriptor) = acc ++ [(k, ⟨d.oid⟩)] :=
      mapInsert_append acc k _ (fun a ha => hacc a ha (k, d) (List.mem_cons_self _ _))
    rw [hins]
    have hrest := ih (acc ++ [(k, ⟨d.oid⟩)])
      (by
        intro a ha b hb
        rcases List.mem_append.mp ha with ha1 | ha2
        · exact hacc a ha1 b (List.mem_cons_of_mem _ hb)
        · have : a = (k, (⟨d.oid⟩ : PatchDescriptor)) := by simpa using ha2
          subst this
          exact (List.pairwise_cons.mp hsort).1 b hb)
      (List.pairwise_cons.mp hsort).2
    rw [hrest]
    simp

theorem visitRawEntries_cons (k : String) (v : Json) (rest : List (String × Json))
    (acc : PartialRaw) :
    visitRawEntries ((k, v) :: rest) acc =
      visitRawEntry acc k v >>= fun a => visitRawEntries rest a := rfl

/-- Raw decode of the repaired encoder output. -/
theorem rawDecode_encodeFixed (S : Stack) (hsorted : S.MapSorted) :
    rawDecode (encodeJsonFixedVersion S) =
      .ok { version := 5, prev := S.prev.map oidHex, head := oidHex S.head,
            applied := S.applied, unapplied := S.unapplied, hidden := S.hidden,
            patches := S.patches.map fun p => (p.1, ⟨oidHex p.2.oid⟩) } := by
  have hprev : visitRawEntry { version := some 5 } "prev"
      (match S.prev with | some o => Json.str (oidHex o) | none => Json.null) =
      .ok { version := some 5, prev := some (S.prev.map oidHex) } := by
    cases S.prev with
    | none => rfl
    | some o => rfl
  show visitRawEntries
      [("version", Json.int 5),
       ("prev", match S.prev with | some o => Json.str (oidHex o) | none => Json.null),
       ("head", Json.str (oidHex S.head)),
       ("applied", Json.arr (S.applied.map Json.str)),
       ("unapplied", Json.arr (S.unapplied.map Json.str)),
       ("hidden", Json.arr (S.hidden.map Json.str)),
       ("patches", Json.obj (S.patches.map fun p =>
         (p.1, Json.obj [("oid", Json.str (oidHex p.2.oid))])))] {} >>= rawDecodeFinish = _
  rw [visitRawEntries_cons,
      show visitRawEntry {} "version" (Json.int 5) = .ok { version := some 5 } from rfl,
      exbind_ok]
  rw [visitRawEntries_cons, hprev, exbind_ok]
  rw [visitRawEntries_cons,
      show visitRawEntry { version := some 5, prev := some (S.prev.map oidHex) } "head"
        (Json.str (oidHex S.head)) =
        .ok { version := some 5, prev := some (S.prev.map oidHex),
              head := some (oidHex S.head) } from rfl,
      exbind_ok]
  rw [visitRawEntries_cons,
      show visitRawEntry
        { version := some 5, prev := some (S.prev.map oidHex), head := some (oidHex S.head) }
        "applied" (Json.arr (S.applied.map Json.str)) =
        (readStrings "applied" (Json.arr (S.applied.map Json.str)) >>= fun xs =>
          Except.ok { version := some 5, prev := some (S.prev.map oidHex),
                      head := some (oidHex S.head), applied := some xs }) from rfl,
      readStrings_map, exbind_ok, exbind_ok]
  rw [visitRawEntries_cons,
      show visitRawEntry
        { version := some 5, prev := some (S.prev.map oidHex), head := some (oidHex S.head),
          applied := some S.applied }
        "unapplied" (Json.arr (S.unapplied.map Json.str)) =
        (readStrings "unapplied" (Json.arr (S.unapplied.map Json.str)) >>= fun xs =>
          Except.ok { version := some 5, prev := some (S.prev.map oidHex),
                      head := some (oidHex S.head), applied := some S.applied,
                      unapplied := some xs }) from rfl,
      readStrings_map, exbind_ok, exbind_ok]
  rw [visitRawEntries_cons,
      show visitRawEntry
        { version := some 5, prev := some (S.prev.map oidHex), head := some (oidHex S.head),
          applied := some S.applied, unapplied := some S.unapplied }
        "hidden" (Json.arr (S.hidden.map Json.str)) =
        (readStrings "hidden" (Json.arr (S.hidden.map Json.str)) >>= fun xs =>
          Except.ok { version := some 5, prev := some (S.prev.map oidHex),
                      head := some (oidHex S.head), applied := some S.applied,
                      unapplied := some S.unapplied, hidden := some xs }) from rfl,
      readStrings_map, exbind_ok, exbind_ok]
  rw [visitRawEntries_cons,
      show visitRawEntry
        { version := some 5, prev := some (S.prev.map oidHex), head := some (oidHex S.head),
          applied := some S.applied, unapplied := some S.unapplied, hidden := some S.hidden }
        "patches" (Json.obj (S.patches.map fun p =>
          (p.1, Json.obj [("oid", Json.str (oidHex p.2.oid))]))) =
        (readRawPatches (Json.obj (S.patches.map fun p =>
          (p.1, Json.obj [("oid", Json.str (oidHex p.2.oid))]))) >>= fun m =>
          Except.ok { version := some 5, prev := some (S.prev.map oidHex),
                      head := some (oidHex S.head), applied := some S.applied,
                      unapplied := some S.unapplied, hidden := some S.hidden,
                      patches := some m }) from rfl,
      readRawPatches_enc S hsorted, exbind_ok, exbind_ok]
  rfl

/-- C1 (amended): with the emitted `version` string replaced by the
integer `5`, decoding is a left inverse of encoding: for every snapshot
whose patch table satisfies the `BTreeMap` key-sortedness representation
invariant (in particular every snapshot satisfying invariant 1 as stored
by the Rust code), `decode (fixVersion (encode S)) = S`. -/
theorem decodeFinish_enc (S : Stack) (hsorted : S.MapSorted) :
    decodeFinish
      { version := 5, prev := S.prev.map oidHex, head := oidHex S.head,
        applied := S.applied, unapplied := S.unapplied, hidden := S.hidden,
        patches := S.patches.map fun p => (p.1, ⟨oidHex p.2.oid⟩) } = .ok S := by
  have hprev : (match (S.prev.map oidHex : Option String) with
      | some oidStr =>
        match oidFromStr oidStr with
        | some o => Except.ok (some o)
        | none => Except.error Err.panicked
      | none => Except.ok none) = (Except.ok S.prev : Except Err (Option Oid)) := by
    cases S.prev with
    | none => rfl
    | some o => simp [oidFromStr_oidHex o]
  unfold decodeFinish
  rw [if_neg (by norm_num)]
  rw [hprev, exbind_ok, oidFromStr_oidHex S.head]
  rw [show (match (some S.head : Option Oid) with
      | some o => Except.ok o
      | none => Except.error Err.panicked) = (Except.ok S.head : Except Err Oid) from rfl,
    exbind_ok]
  rw [buildPatches_sorted S.patches [] (by intro a ha; simp at ha) hsorted, exbind_ok]
  rfl

/-- C1 (amended): with the emitted `version` string replaced by the
integer `5`, decoding is a left inverse of encoding: for every snapshot
whose patch table satisfies the `BTreeMap` key-sortedness representation
invariant (in particular every snapshot satisfying invariant 1 as stored
by the Rust code), `decode (fixVersion (encode S)) = S`. -/
theorem roundtrip_with_integer_version (S : Stack) (hsorted : S.MapSorted) :
    decodeStack (encodeJsonFixedVersion S) = .ok S := by
  unfold decodeStack
  rw [rawDecode_encodeFixed S hsorted, exbind_ok]
  exact decodeFinish_enc S hsorted

theorem roundtrip_with_integer_version_witness :
    decodeStack (encodeJsonFixedVersion sampleStack) = .ok sampleStack :=
  roundtrip_with_integer_version sampleStack (by decide)

/-! ## C6 — the full parent set before fanout reduction -/

theorem obind_ok {α β : Type} (a : α) (f : α → Option β) :
    (some a >>= f) = f a := rfl

theorem mem_setInsert (l : List Oid) (x y : Oid) :
    y ∈ setInsert l x ↔ y ∈ l ∨ y = x := by
  unfold setInsert
  split
  · rename_i hin
    constructor
    · exact Or.inl
    · rintro (h | rfl)
      · exact h
      · exact hin
  · simp [List.mem_append]

theorem mem_setRemove (l : List Oid) (x y : Oid) :
    y ∈ setRemove l x ↔ y ∈ l ∧ y ≠ x := by
  simp [setRemove, List.mem_filter]

theorem mem_insertOids (s : Stack) :
    ∀ (names : List String) (acc l : List Oid),
      insertOids s names acc = some l →
      ∀ x, x ∈ l ↔ (x ∈ acc ∨ ∃ n ∈ names, s.patchOid? n = some x) := by
  intro names
  induction names with
  | nil =>
    intro acc l h x
    have : acc = l := by simpa [insertOids] using h
    subst this
    simp
  | cons n rest ih =>
    intro acc l h x
    cases ho : s.patchOid? n with
    | none => rw [insertOids, ho] at h; exact absurd h (by simp)
    | some o =>
      rw [insertOids, ho] at h
      rw [ih _ _ h x, mem_setInsert]
      have hbridge : x = o ↔ s.patchOid? n = some x := by
        constructor
        · rintro rfl; exact ho
        · intro h2; rw [ho] at h2; exact (Option.some.inj h2).symm
      constructor
      · rintro ((hacc | hxo) | ⟨m, hm, hlook⟩)
        · exact Or.inl hacc
        · exact Or.inr ⟨n, List.mem_cons_self _ _, hbridge.mp hxo⟩
        · exact Or.inr ⟨m, List.mem_cons_of_mem _ hm, hlook⟩
      · rintro (hacc | ⟨m, hm, hlook⟩)
        · exact Or.inl (Or.inl hacc)
        · rcases List.mem_cons.mp hm with rfl | hm2
          · exact Or.inl (Or.inr (hbridge.mpr hlook))
          · exact Or.inr ⟨m, hm2, hlook⟩

theorem mem_removeOids (ps : Stack) :
    ∀ (names : List String) (acc l : List Oid),
      removeOids ps names acc = some l →
      ∀ x, x ∈ l ↔ (x ∈ acc ∧ ∀ n ∈ names, ps.patchOid? n ≠ some x) := by
  intro names
  induction names with
  | nil =>
    intro acc l h x
    have : acc = l := by simpa [removeOids] using h
    subst this
    simp
  | cons n rest ih =>
    intro acc l h x
    cases ho : ps.patchOid? n with
    | none => rw [removeOids, ho] at h; exact absurd h (by simp)
    | some o =>
      rw [removeOids, ho] at h
      rw [ih _ _ h x, mem_setRemove]
      have hbridge : x ≠ o ↔ ps.patchOid? n ≠ some x := by
        constructor
        · intro hne h2
          rw [ho] at h2
          exact hne (Option.some.inj h2).symm
        · intro hne h2
          subst h2
          exact hne ho
      constructor
      · rintro ⟨⟨hacc, hxo⟩, hrest⟩
        refine ⟨hacc, ?_⟩
        intro m hm
        rcases List.mem_cons.mp hm with rfl | hm2
        · exact hbridge.mp hxo
        · exact hrest m hm2
      · rintro ⟨hacc, hall⟩
        exact ⟨⟨hacc, hbridge.mpr (hall n (List.mem_cons_self _ _))⟩,
          fun m hm => hall m (List.mem_cons_of_mem _ hm)⟩

/-- C6: the full parent set computed before fanout reduction (stack.rs
lines 111-128) contains exactly `head`, `top()`, the commit of every
unapplied and hidden patch, and, when `prev` is set, also `prev` itself,
with the commit of every patch of the loaded previous snapshot removed
from the whole set. -/
theorem parent_set_characterization :
    (∀ (S : Stack) (l : List Oid) (t : Oid),
      S.prev = none → S.top? = some t → parentOidsOf S none = some l →
      ∀ x, x ∈ l ↔ (x = S.head ∨ x = t ∨
        (∃ n ∈ S.unapplied, S.patchOid? n = some x) ∨
        (∃ n ∈ S.hidden, S.patchOid? n = some x))) ∧
    (∀ (S prevSt : Stack) (p : Oid) (l : List Oid) (t : Oid),
      S.prev = some p → S.top? = some t → parentOidsOf S (some prevSt) = some l →
      ∀ x, x ∈ l ↔ ((x = S.head ∨ x = t ∨
        (∃ n ∈ S.unapplied, S.patchOid? n = some x) ∨
        (∃ n ∈ S.hidden, S.patchOid? n = some x) ∨ x = p) ∧
        (∀ n ∈ prevSt.allPatches, prevSt.patchOid? n ≠ some x))) := by
  constructor
  · intro S l t hprev htop hpar x
    unfold parentOidsOf at hpar
    rw [htop, obind_ok, hprev] at hpar
    cases h1 : insertOids S S.unapplied (setInsert (setInsert [] S.head) t) with
    | none => rw [h1] at hpar; exact absurd hpar (by simp)
    | some l1 =>
      rw [h1, obind_ok] at hpar
      cases h2 : insertOids S S.hidden l1 with
      | none => rw [h2] at hpar; exact absurd hpar (by simp)
      | some l2 =>
        rw [h2, obind_ok] at hpar
        have hl2 : l2 = l := by simpa using hpar
        subst hl2
        rw [mem_insertOids S _ _ _ h2 x, mem_insertOids S _ _ _ h1 x, mem_setInsert,
          mem_setInsert]
        simp only [List.not_mem_nil, false_or, or_assoc]
  · intro S prevSt p l t hprev htop hpar x
    unfold parentOidsOf at hpar
    rw [htop, obind_ok, hprev] at hpar
    cases h1 : insertOids S S.unapplied (setInsert (setInsert [] S.head) t) with
    | none => rw [h1] at hpar; exact absurd hpar (by simp)
    | some l1 =>
      rw [h1, obind_ok] at hpar
      cases h2 : insertOids S S.hidden l1 with
      | none => rw [h2] at hpar; exact absurd hpar (by simp)
      | some l2 =>
        rw [h2, obind_ok] at hpar
        have hpar2 : removeOids prevSt prevSt.allPatches (setInsert l2 p) = some l := hpar
        rw [mem_removeOids prevSt _ _ _ hpar2 x, mem_setInsert,
          mem_insertOids S _ _ _ h2 x, mem_insertOids S _ _ _ h1 x, mem_setInsert,
          mem_setInsert]
        simp only [List.not_mem_nil, false_or, or_assoc]

/-- Snapshot with a previous snapshot link, used to witness C6. -/
def stackWithPrev : Stack :=
  { prev := some oidP, head := oidA, applied := ["p1"], unapplied := ["p2"], hidden := [],
    patches := [("p1", ⟨oidB⟩), ("p2", ⟨oidC⟩)] }

/-- The state loaded from `stackWithPrev.prev`: one unapplied patch whose
commit is `oidC`. -/
def prevStackEx : Stack :=
  { prev := none, head := oidA, applied := [], unapplied := ["q"], hidden := [],
    patches := [("q", ⟨oidC⟩)] }

def parentListEx : List Oid := [oidA, oidB, oidP]

theorem parent_set_characterization_witness :
    oidC ∈ parentListEx ↔ ((oidC = stackWithPrev.head ∨ oidC = oidB ∨
      (∃ n ∈ stackWithPrev.unapplied, stackWithPrev.patchOid? n = some oidC) ∨
      (∃ n ∈ stackWithPrev.hidden, stackWithPrev.patchOid? n = some oidC) ∨ oidC = oidP) ∧
      (∀ n ∈ prevStackEx.allPatches, prevStackEx.patchOid? n ≠ some oidC)) :=
  parent_set_characterization.2 stackWithPrev prevStackEx oidP parentListEx oidB
    rfl rfl rfl oidC

/-! ## C4 and C5 — the shape of a `Stack::commit` write sequence -/

/-- Number of `repo.commit` calls in a write log. -/
def commitWriteCount (l : List Write) : Nat :=
  (l.filter Write.isCommit).length

/-- Number of iterations of the fanout-reduction loop on a parent list of
length `n`: each iteration replaces `MAX_PARENTS` ids by one group id. -/
def groupIters (n : Nat) : Nat :=
  if n > MAX_PARENTS then groupIters (n - 15) + 1 else 0
termination_by n
decreasing_by
  simp_wf
  have h16 : MAX_PARENTS = 16 := rfl
  omega

theorem groupIters_zero (n : Nat) (h : n ≤ MAX_PARENTS) : groupIters n = 0 := by
  unfold groupIters
  rw [if_neg (by omega)]

theorem groupIters_succ (n : Nat) (h : n > MAX_PARENTS) :
    groupIters n = groupIters (n - 15) + 1 := by
  conv_lhs => unfold groupIters
  rw [if_pos h]

/-- A fanout-reduction (grouping) commit write: no ref update, message
`"parent grouping"`, exactly `MAX_PARENTS` parents. -/
def IsGroupingWrite (w : Write) : Prop :=
  w.isCommit = true ∧ w.parentCount = MAX_PARENTS ∧
  w.messageOf = "parent grouping" ∧ w.updateRefOf = none

theorem checkAll_pure (env : Env) (st : WriteSt) :
    ∀ (l : List Oid) (u : Unit), checkAll env st l = .ok u → True := by
  intro l u _; trivial

theorem foldlM_find_ok (env : Env) (st : WriteSt) :
    ∀ (l : List Oid) (u0 : Unit) (u : Unit),
      l.foldlM (fun _ o => findCommitE env st o) u0 = .ok u → True := by
  intro l u0 u _; trivial

set_option maxHeartbeats 1000000 in
theorem groupLoop_spec (env : Env) (tree : Oid) :
    ∀ (N : Nat) (parentOids : List Oid) (st : WriteSt) (l2 : List Oid) (st2 : WriteSt),
      parentOids.length = N →
      groupLoop env tree parentOids st = .ok (l2, st2) →
      ∃ ws, st2.log = st.log ++ ws ∧
        (∀ w ∈ ws, IsGroupingWrite w) ∧
        ws.length = groupIters parentOids.length ∧
        l2.length ≤ MAX_PARENTS := by
  intro N
  induction N using Nat.strong_induction_on with
  | _ N ih =>
    intro parentOids st l2 st2 hlen hrun
    rw [groupLoop.eq_def] at hrun
    by_cases hgt : parentOids.length > MAX_PARENTS
    · rw [dif_pos hgt] at hrun
      simp only [writeCommit] at hrun
      cases hfold : (parentOids.drop (parentOids.length - MAX_PARENTS)).foldlM
          (fun _ o => findCommitE env st o) () with
      | error e => rw [hfold] at hrun; exact absurd hrun (by simp)
      | ok u =>
        obtain ⟨⟩ := u
        rw [hfold] at hrun
        simp only [] at hrun
        have hdl : (parentOids.drop (parentOids.length - MAX_PARENTS)).length = MAX_PARENTS := by
          rw [List.length_drop]
          have h16 : MAX_PARENTS = 16 := rfl
          omega
        have hrest : (parentOids.take (parentOids.length - MAX_PARENTS)).length
            = parentOids.length - MAX_PARENTS := by
          rw [List.length_take]
          exact Nat.min_eq_left (Nat.sub_le _ _)
        have hnext := ih (parentOids.length - 15)
          (by have h16 : MAX_PARENTS = 16 := rfl; omega)
          (parentOids.take (parentOids.length - MAX_PARENTS) ++
            [env.fresh st.nextFresh])
          { nextFresh := st.nextFresh + 1,
            log := st.log ++ [Write.commit none "parent grouping" tree
              (parentOids.drop (parentOids.length - MAX_PARENTS)) (env.fresh st.nextFresh)] }
          l2 st2
          (by
            simp only [List.length_append, hrest, List.length_cons, List.length_nil]
            have h16 : MAX_PARENTS = 16 := rfl
            omega)
          hrun
        obtain ⟨ws, hlog, hall, hcount, hle⟩ := hnext
        refine ⟨Write.commit none "parent grouping" tree
          (parentOids.drop (parentOids.length - MAX_PARENTS)) (env.fresh st.nextFresh) :: ws,
          ?_, ?_, ?_, hle⟩
        · rw [hlog]
          simp
        · intro w hw
          rcases List.mem_cons.mp hw with rfl | hw2
          · exact ⟨rfl, by simp [Write.parentCount, hdl], rfl, rfl⟩
          · exact hall w hw2
        · rw [List.length_cons, hcount, groupIters_succ _ hgt]
          have hlist : (List.take (parentOids.length - MAX_PARENTS) parentOids ++
              [env.fresh st.nextFresh]).length = parentOids.length - 15 := by
            simp only [List.length_append, hrest, List.length_cons, List.length_nil]
            have h16 : MAX_PARENTS = 16 := rfl
            omega
          rw [hlist]
    · rw [dif_neg hgt] at hrun
      have h1 : parentOids = l2 ∧ st = st2 := by
        constructor
        · exact congrArg Prod.fst (Except.ok.inj hrun)
        · exact congrArg Prod.snd (Except.ok.inj hrun)
      obtain ⟨rfl, rfl⟩ := h1
      exact ⟨[], by simp, by simp, by rw [groupIters_zero _ (by omega)]; rfl,
        by omega⟩

theorem buildPatchMeta_log (env : Env) (st : WriteSt) (oid o : Oid) (st2 : WriteSt)
    (h : buildPatchMeta env st oid = .ok (o, st2)) :
    ∃ ws, st2.log = st.log ++ ws ∧ ∀ w ∈ ws, w.isCommit = false := by
  unfold buildPatchMeta at h
  cases hfc : findCommitE env st oid with
  | error e => rw [hfc, exbind_err] at h; exact absurd h (by simp)
  | ok u =>
    obtain ⟨⟩ := u
    rw [hfc, exbind_ok] at h
    cases hp : env.parent0 oid with
    | none => rw [hp] at h; exact absurd h (by simp)
    | some parent =>
      rw [hp] at h
      simp only [writeBlobStr] at h
      obtain ⟨ho, hst⟩ := Prod.mk.inj (Except.ok.inj h)
      subst hst
      exact ⟨_, rfl, by simp [Write.isCommit]⟩

theorem makePatchMeta_log (s : Stack) (env : Env) (st : WriteSt) (patchName : String)
    (oid : Oid) (pst : Option (Stack × TreeH)) (o : Oid) (st2 : WriteSt)
    (h : s.makePatchMeta env st patchName oid pst = .ok (o, st2)) :
    ∃ ws, st2.log = st.log ++ ws ∧ ∀ w ∈ ws, w.isCommit = false := by
  unfold Stack.makePatchMeta at h
  cases pst with
  | none => exact buildPatchMeta_log env st oid o st2 h
  | some pt =>
    obtain ⟨prevState, prevTree⟩ := pt
    have h2 : (match anyMatching prevState patchName oid prevState.allPatches with
        | none => Except.error Err.panicked
        | some true =>
          match prevTree.getPath ("patches/" ++ patchName) with
          | some entryId => Except.ok (entryId, st)
          | none => buildPatchMeta env st oid
        | some false => buildPatchMeta env st oid) = Except.ok (o, st2) := h
    cases ham : anyMatching prevState patchName oid prevState.allPatches with
    | none => rw [ham] at h2; exact absurd h2 (by simp)
    | some b =>
      rw [ham] at h2
      cases b with
      | false => exact buildPatchMeta_log env st oid o st2 h2
      | true =>
        cases hg : prevTree.getPath ("patches/" ++ patchName) with
        | some entryId =>
          rw [hg] at h2
          obtain ⟨ho, hst⟩ := Prod.mk.inj (Except.ok.inj h2)
          subst hst
          exact ⟨[], by simp, by simp⟩
        | none =>
          rw [hg] at h2
          exact buildPatchMeta_log env st oid o st2 h2

theorem makePatchesEntries_log (s : Stack) (env : Env) (pst : Option (Stack × TreeH)) :
    ∀ (names : List String) (st : WriteSt) (acc es : List (String × Oid)) (st2 : WriteSt),
      s.makePatchesEntries env pst names st acc = .ok (es, st2) →
      ∃ ws, st2.log = st.log ++ ws ∧ ∀ w ∈ ws, w.isCommit = false := by
  intro names
  induction names with
  | nil =>
    intro st acc es st2 h
    have h2 : (Except.ok (acc, st) : Except Err (List (String × Oid) × WriteSt)) =
        Except.ok (es, st2) := h
    obtain ⟨he, hst⟩ := Prod.mk.inj (Except.ok.inj h2)
    subst hst
    exact ⟨[], by simp, by simp⟩
  | cons n rest ih =>
    intro st acc es st2 h
    rw [Stack.makePatchesEntries] at h
    cases ho : s.patchOid? n with
    | none => rw [ho] at h; exact absurd h (by simp)
    | some oid =>
      rw [ho] at h
      have h2 : (s.makePatchMeta env st n oid pst >>= fun pr =>
          s.makePatchesEntries env pst rest pr.2 (acc ++ [(n, pr.1)])) =
          Except.ok (es, st2) := h
      cases hm : s.makePatchMeta env st n oid pst with
      | error e => rw [hm, exbind_err] at h2; exact absurd h2 (by simp)
      | ok p =>
        obtain ⟨metaId, st3⟩ := p
        rw [hm, exbind_ok] at h2
        obtain ⟨ws1, hlog1, hnc1⟩ := makePatchMeta_log s env st n oid pst metaId st3 hm
        obtain ⟨ws2, hlog2, hnc2⟩ := ih st3 (acc ++ [(n, metaId)]) es st2 h2
        refine ⟨ws1 ++ ws2, ?_, ?_⟩
        · rw [hlog2, hlog1, List.append_assoc]
        · intro w hw
          rcases List.mem_append.mp hw with h1 | h2
          · exact hnc1 w h1
          · exact hnc2 w h2

theorem makeTree_log (s : Stack) (env : Env) (st : WriteSt)
    (pst : Option (Stack × TreeH)) (t : Oid) (st2 : WriteSt)
    (h : s.makeTree env st pst = .ok (t, st2)) :
    ∃ ws, st2.log = st.log ++ ws ∧ ∀ w ∈ ws, w.isCommit = false := by
  unfold Stack.makeTree Stack.makePatchesTree at h
  simp only [writeBlobJson] at h
  cases hpe : s.makePatchesEntries env pst s.allPatches
      { st with log := st.log ++ [Write.blobJson (encodeJson s)
        (env.blobJsonId (encodeJson s))] } [] with
  | error e => rw [hpe, exbind_err, exbind_err] at h; exact absurd h (by simp)
  | ok p =>
    obtain ⟨entries, st3⟩ := p
    rw [hpe, exbind_ok] at h
    simp only [writeTree, exbind_ok] at h
    obtain ⟨ht, hst⟩ := Prod.mk.inj (Except.ok.inj h)
    subst hst
    obtain ⟨ws1, hlog1, hnc1⟩ := makePatchesEntries_log s env pst s.allPatches _ [] entries st3 hpe
    refine ⟨[Write.blobJson (encodeJson s) (env.blobJsonId (encodeJson s))] ++ ws1 ++
      [Write.tree entries (env.treeOf entries)] ++
      [Write.tree [("stack.json", env.blobJsonId (encodeJson s)),
          ("patches", env.treeOf entries)]
        (env.treeOf [("stack.json", env.blobJsonId (encodeJson s)),
          ("patches", env.treeOf entries)])], ?_, ?_⟩
    · show st3.log ++ [Write.tree entries (env.treeOf entries)] ++
        [Write.tree [("stack.json", env.blobJsonId (encodeJson s)),
            ("patches", env.treeOf entries)]
          (env.treeOf [("stack.json", env.blobJsonId (encodeJson s)),
            ("patches", env.treeOf entries)])] = _
      rw [hlog1]
      simp only [List.append_assoc]
    · intro w hw
      simp only [List.append_assoc, List.mem_append, List.mem_singleton] at hw
      rcases hw with rfl | h1 | rfl | rfl
      · rfl
      · exact hnc1 w h1
      · rfl
      · rfl

theorem commitRest_shape (s : Stack) (env : Env) (uref : Option String) (msg : String)
    (prevState : Option Stack) (stateTree : Oid) (sp : List Oid) (st : WriteSt)
    (oid : Oid) (st2 : WriteSt)
    (h : s.commitRest env uref msg prevState stateTree sp st = .ok (oid, st2)) :
    ∃ pl wsGroup remaining,
      parentOidsOf s prevState = some pl ∧
      st2.log = st.log ++
        [Write.commit none msg stateTree sp (env.fresh st.nextFresh)] ++ wsGroup ++
        [Write.commit uref msg stateTree (env.fresh st.nextFresh :: remaining) oid] ∧
      (∀ w ∈ wsGroup, IsGroupingWrite w) ∧
      wsGroup.length = groupIters pl.length ∧
      remaining.length ≤ MAX_PARENTS := by
  unfold Stack.commitRest at h
  simp only [writeCommit] at h
  cases hpo : parentOidsOf s prevState with
  | none => rw [hpo, exbind_err] at h; exact absurd h (by simp)
  | some pl =>
    rw [hpo, exbind_ok] at h
    cases hgl : groupLoop env stateTree pl
        { nextFresh := st.nextFresh + 1,
          log := st.log ++ [Write.commit none msg stateTree sp (env.fresh st.nextFresh)] } with
    | error e => rw [hgl, exbind_err] at h; exact absurd h (by simp)
    | ok pg =>
      obtain ⟨remaining, stG⟩ := pg
      rw [hgl, exbind_ok] at h
      cases hfc : findCommitE env stG (env.fresh st.nextFresh) with
      | error e => rw [hfc, exbind_err] at h; exact absurd h (by simp)
      | ok u =>
        obtain ⟨⟩ := u
        rw [hfc, exbind_ok] at h
        cases hca : checkAll env stG remaining with
        | error e => rw [hca, exbind_err] at h; exact absurd h (by simp)
        | ok u2 =>
          obtain ⟨⟩ := u2
          rw [hca, exbind_ok] at h
          obtain ⟨ho, hst⟩ := Prod.mk.inj (Except.ok.inj h)
          subst hst
          obtain ⟨wsG, hlogG, hallG, hcntG, hleG⟩ :=
            groupLoop_spec env stateTree pl.length pl _ remaining stG rfl hgl
          refine ⟨pl, wsG, remaining, rfl, ?_, hallG, hcntG, hleG⟩
          show stG.log ++ [Write.commit uref msg stateTree
            (env.fresh st.nextFresh :: remaining) (env.fresh stG.nextFresh)] = _
          simp only [hlogG, ho, List.append_assoc]

/-- The overall shape of a successful `Stack::commit` run: some non-commit
(blob and tree) writes, the simplified commit (at most one parent), the
grouping commits (exactly `MAX_PARENTS` parents each, one per fanout
iteration), and the final commit whose parents are the simplified commit
followed by the reduced parent set. -/
theorem commit_shape (S : Stack) (env : Env) (uref : Option String) (msg : String)
    (st : WriteSt) (oid : Oid) (st2 : WriteSt)
    (h : S.commit env uref msg st = .ok (oid, st2)) :
    ∃ (prevUsed : Option Stack) (pl : List Oid) (wsPre : List Write) (sp : List Oid)
      (spOid : Oid) (wsGroup : List Write) (remaining : List Oid) (stateTree : Oid),
      parentOidsOf S prevUsed = some pl ∧
      sp.length ≤ 1 ∧
      remaining.length ≤ MAX_PARENTS ∧
      (∀ w ∈ wsPre, w.isCommit = false) ∧
      (∀ w ∈ wsGroup, IsGroupingWrite w) ∧
      wsGroup.length = groupIters pl.length ∧
      st2.log = st.log ++ wsPre ++ [Write.commit none msg stateTree sp spOid] ++ wsGroup ++
        [Write.commit uref msg stateTree (spOid :: remaining) oid] := by
  unfold Stack.commit at h
  cases hp : S.prev with
  | none =>
    rw [hp] at h
    have h2 : (S.makeTree env st none >>= fun p1 =>
        (Except.ok ([] : List Oid) : Except Err (List Oid)) >>= fun sp =>
        S.commitRest env uref msg none p1.1 sp p1.2) = Except.ok (oid, st2) := h
    cases hmt : S.makeTree env st none with
    | error e => rw [hmt, exbind_err] at h2; exact absurd h2 (by simp)
    | ok p1 =>
      obtain ⟨stateTree, st1⟩ := p1
      rw [hmt, exbind_ok] at h2
      have h3 : S.commitRest env uref msg none stateTree [] st1 = Except.ok (oid, st2) := h2
      obtain ⟨pl, wsG, remaining, hpo, hlog, hallG, hcnt, hle⟩ :=
        commitRest_shape S env uref msg none stateTree [] st1 oid st2 h3
      obtain ⟨wsPre, hlogPre, hncPre⟩ := makeTree_log S env st none stateTree st1 hmt
      refine ⟨none, pl, wsPre, [], env.fresh st1.nextFresh, wsG, remaining, stateTree,
        hpo, by simp, hle, hncPre, hallG, hcnt, ?_⟩
      simp only [hlog, hlogPre, List.append_assoc]
  | some p =>
    rw [hp] at h
    have h2a : ((match env.loadPrev p with
        | Except.ok pst => (Except.ok (some pst) : Except Err (Option (Stack × TreeH)))
        | Except.error e => Except.error e) >>= fun prevStateTree =>
        S.makeTree env st prevStateTree >>= fun p1 =>
        (findCommitE env p1.2 p >>= fun _ =>
         (match env.parent0 p with
          | some gp => Except.ok [gp]
          | none => Except.error Err.noParent)) >>= fun sp =>
        S.commitRest env uref msg (Option.map Prod.fst prevStateTree) p1.1 sp p1.2) =
        Except.ok (oid, st2) := h
    cases hlp : env.loadPrev p with
    | error e =>
      rw [hlp] at h2a
      have h2b : (Except.error e : Except Err (Oid × WriteSt)) = Except.ok (oid, st2) := h2a
      exact absurd h2b (by simp)
    | ok pst =>
      obtain ⟨prevSt, prevTree⟩ := pst
      rw [hlp] at h2a
      have h2 : (S.makeTree env st (some (prevSt, prevTree)) >>= fun p1 =>
          (findCommitE env p1.2 p >>= fun _ =>
           (match env.parent0 p with
            | some gp => Except.ok [gp]
            | none => Except.error Err.noParent)) >>= fun sp =>
          S.commitRest env uref msg (some prevSt) p1.1 sp p1.2) = Except.ok (oid, st2) := h2a
      cases hmt : S.makeTree env st (some (prevSt, prevTree)) with
      | error e => rw [hmt, exbind_err] at h2; exact absurd h2 (by simp)
      | ok p1 =>
        obtain ⟨stateTree, st1⟩ := p1
        rw [hmt, exbind_ok] at h2
        have h3 : ((findCommitE env st1 p >>= fun _ =>
            (match env.parent0 p with
             | some gp => Except.ok [gp]
             | none => Except.error Err.noParent)) >>= fun sp =>
            S.commitRest env uref msg (some prevSt) stateTree sp st1) =
            Except.ok (oid, st2) := h2
        cases hfc : findCommitE env st1 p with
        | error e =>
          rw [hfc, exbind_err, exbind_err] at h3
          exact absurd h3 (by simp)
        | ok u =>
          obtain ⟨⟩ := u
          rw [hfc, exbind_ok] at h3
          cases hp0 : env.parent0 p with
          | none => rw [hp0, exbind_err] at h3; exact absurd h3 (by simp)
          | some gp =>
            rw [hp0, exbind_ok] at h3
            obtain ⟨pl, wsG, remaining, hpo, hlog, hallG, hcnt, hle⟩ :=
              commitRest_shape S env uref msg (some prevSt) stateTree [gp] st1 oid st2 h3
            obtain ⟨wsPre, hlogPre, hncPre⟩ :=
              makeTree_log S env st (some (prevSt, prevTree)) stateTree st1 hmt
            refine ⟨some prevSt, pl, wsPre, [gp], env.fresh st1.nextFresh, wsG, remaining,
              stateTree, hpo, by simp, hle, hncPre, hallG, hcnt, ?_⟩
            simp only [hlog, hlogPre, List.append_assoc]

/-- C4 (amended): in every successful `Stack::commit` run, the simplified
commit has at most one parent and every grouping commit exactly
`MAX_PARENTS`; the FINAL commit however has up to `MAX_PARENTS + 1`
parents (the simplified parent plus up to `MAX_PARENTS` reduced set
parents), so the bound over all written commits is `MAX_PARENTS + 1`, not
`MAX_PARENTS` as claimed (see the 17-parent counterexample). -/
theorem fanout_bound (S : Stack) (env : Env) (uref : Option String) (msg : String)
    (st : WriteSt) (oid : Oid) (st2 : WriteSt)
    (h : S.commit env uref msg st = .ok (oid, st2)) :
    ∃ ws, st2.log = st.log ++ ws ∧
      (∀ w ∈ ws.dropLast, w.isCommit = true → w.parentCount ≤ MAX_PARENTS) ∧
      (∀ w ∈ ws, w.isCommit = true → w.parentCount ≤ MAX_PARENTS + 1) := by
  obtain ⟨prevUsed, pl, wsPre, sp, spOid, wsG, remaining, stateTree,
    hpo, hsp, hrem, hncPre, hallG, hcnt, hlog⟩ :=
    commit_shape S env uref msg st oid st2 h
  refine ⟨wsPre ++ [Write.commit none msg stateTree sp spOid] ++ wsG ++
    [Write.commit uref msg stateTree (spOid :: remaining) oid], ?_, ?_, ?_⟩
  · rw [hlog]; simp only [List.append_assoc]
  · have hdl : (wsPre ++ [Write.commit none msg stateTree sp spOid] ++ wsG ++
        [Write.commit uref msg stateTree (spOid :: remaining) oid]).dropLast =
        wsPre ++ [Write.commit none msg stateTree sp spOid] ++ wsG := by
      rw [List.dropLast_concat]
    rw [hdl]
    intro w hw _
    simp only [List.mem_append, List.mem_singleton] at hw
    rcases hw with (hw1 | rfl) | hw3
    · exact absurd (hncPre w hw1) (by simp_all)
    · show sp.length ≤ MAX_PARENTS
      have h16 : MAX_PARENTS = 16 := rfl
      omega
    · obtain ⟨_, hpc, _, _⟩ := hallG w hw3
      rw [hpc]
  · intro w hw _
    simp only [List.mem_append, List.mem_singleton] at hw
    have h16 : MAX_PARENTS = 16 := rfl
    rcases hw with ((hw1 | rfl) | hw3) | rfl
    · exact absurd (hncPre w hw1) (by simp_all)
    · show sp.length ≤ MAX_PARENTS + 1
      omega
    · obtain ⟨_, hpc, _, _⟩ := hallG w hw3
      rw [hpc]
      omega
    · show (spOid :: remaining).length ≤ MAX_PARENTS + 1
      simp only [List.length_cons]
      omega

/-- C5 (amended): a successful `Stack::commit` run always writes the
simplified commit and the final commit — two commits — plus exactly one
grouping commit per fanout-reduction iteration; when no fanout reduction
is needed (parent set within `MAX_PARENTS`) exactly two commits are
written, never one. -/
theorem commit_write_count (S : Stack) (env : Env) (uref : Option String) (msg : String)
    (st : WriteSt) (oid : Oid) (st2 : WriteSt)
    (h : S.commit env uref msg st = .ok (oid, st2)) :
    ∃ (prevUsed : Option Stack) (pl : List Oid) (ws : List Write),
      parentOidsOf S prevUsed = some pl ∧
      st2.log = st.log ++ ws ∧
      commitWriteCount ws = 2 + groupIters pl.length ∧
      (pl.length ≤ MAX_PARENTS → commitWriteCount ws = 2) ∧
      (MAX_PARENTS < pl.length → 3 ≤ commitWriteCount ws) := by
  obtain ⟨prevUsed, pl, wsPre, sp, spOid, wsG, remaining, stateTree,
    hpo, hsp, hrem, hncPre, hallG, hcnt, hlog⟩ :=
    commit_shape S env uref msg st oid st2 h
  have hfPre : wsPre.filter Write.isCommit = [] :=
    List.filter_eq_nil.mpr (fun w hw => by rw [hncPre w hw]; exact Bool.noConfusion)
  have hfG : wsG.filter Write.isCommit = wsG :=
    List.filter_eq_self.mpr (fun w hw => (hallG w hw).1)
  have hcount : commitWriteCount (wsPre ++ [Write.commit none msg stateTree sp spOid] ++
      wsG ++ [Write.commit uref msg stateTree (spOid :: remaining) oid]) =
      2 + groupIters pl.length := by
    unfold commitWriteCount
    simp only [List.filter_append, hfPre, hfG, List.length_append]
    simp only [List.filter, Write.isCommit, List.length_cons, List.length_nil]
    omega
  refine ⟨prevUsed, pl, _, hpo, by rw [hlog]; simp only [List.append_assoc], hcount,
    fun hle => ?_, fun hgt => ?_⟩
  · rw [hcount, groupIters_zero _ hle]
  · rw [hcount, groupIters_succ _ hgt]
    omega

set_option maxHeartbeats 1000000 in
/-- The fanout loop is the identity when the parent list already fits. -/
theorem groupLoop_noop (env : Env) (tree : Oid) (l : List Oid) (st : WriteSt)
    (h : l.length ≤ MAX_PARENTS) : groupLoop env tree l st = .ok (l, st) := by
  rw [groupLoop.eq_def, dif_neg (by omega)]

/-- Evaluation rule for `Stack::commit` without a previous snapshot and
without fanout reduction; the right-hand side is free of well-founded
recursion and so computes by `rfl` on concrete inputs. -/
theorem commit_eval_noFanout (S : Stack) (env : Env) (uref : Option String) (msg : String)
    (st : WriteSt) (pl : List Oid)
    (hprev : S.prev = none) (hpo : parentOidsOf S none = some pl)
    (hlen : pl.length ≤ MAX_PARENTS) :
    S.commit env uref msg st =
      S.makeTree env st none >>= fun p1 =>
      (fun sp : Oid × WriteSt =>
        findCommitE env sp.2 sp.1 >>= fun _ =>
        checkAll env sp.2 pl >>= fun _ =>
        Except.ok (writeCommit env sp.2 uref msg p1.1 (sp.1 :: pl)))
      (writeCommit env p1.2 none msg p1.1 []) := by
  unfold Stack.commit
  rw [hprev]
  show (S.makeTree env st none >>= fun p1 =>
      (Except.ok ([] : List Oid) : Except Err (List Oid)) >>= fun sp =>
      S.commitRest env uref msg none p1.1 sp p1.2) = _
  cases hmt : S.makeTree env st none with
  | error e => rfl
  | ok p1 =>
    rw [exbind_ok, exbind_ok]
    show S.commitRest env uref msg none p1.1 [] p1.2 = _
    unfold Stack.commitRest
    show ((match parentOidsOf S none with
           | some l => Except.ok l
           | none => Except.error Err.panicked) >>= fun parentOids0 =>
          groupLoop env p1.1 parentOids0 (writeCommit env p1.2 none msg p1.1 []).2 >>=
            fun pg =>
          findCommitE env pg.2 (writeCommit env p1.2 none msg p1.1 []).1 >>= fun _ =>
          checkAll env pg.2 pg.1 >>= fun _ =>
          Except.ok (writeCommit env pg.2 uref msg p1.1
            ((writeCommit env p1.2 none msg p1.1 []).1 :: pg.1))) = _
    rw [hpo, exbind_ok, groupLoop_noop env p1.1 pl _ hlen, exbind_ok]
    rfl

/-! ### Demo environment and concrete runs -/

/-- A total environment for concrete runs: every commit exists, every
commit has a first parent, content addressing and the fresh supply are
simple injections. -/
def demoEnv : Env :=
  { hasCommit := fun _ => true
    parent0 := fun _ => some (mkOid 999)
    treeId := fun o => o
    authorStr := fun _ => "A U Thor <author@example.com>"
    dateLine := fun _ => "2021-01-01 00:00:00 +0000"
    loadPrev := fun _ => .error .metadataNotFound
    blobStrId := fun _ => mkOid 7001
    blobJsonId := fun _ => mkOid 7002
    treeOf := fun _ => mkOid 7003
    fresh := fun n => mkOid (1000000 + n)
    headRef := some { shorthand := some "master", isBranch := true, tip := mkOid 22 }
    resolveShort := fun name =>
      if name = "dev" then some { shorthand := some "dev", isBranch := true, tip := mkOid 11 }
      else none
    refExists := fun _ => false }

/-- Parent counts of the commit writes of a run. -/
def commitParentCounts (r : Except Err (Oid × WriteSt)) : List Nat :=
  match r with
  | .ok p => (p.2.log.filter Write.isCommit).map Write.parentCount
  | .error _ => []

/-- Number of commit writes of a run. -/
def commitCountOf (r : Except Err (Oid × WriteSt)) : Nat :=
  match r with
  | .ok p => commitWriteCount p.2.log
  | .error _ => 0

/-- A snapshot whose parent set has exactly `MAX_PARENTS` elements:
`head` plus 15 distinct unapplied patch commits. -/
def stack16 : Stack :=
  { prev := none, head := mkOid 100, applied := [],
    unapplied := ["a01", "a02", "a03", "a04", "a05", "a06", "a07", "a08", "a09", "a10",
                  "a11", "a12", "a13", "a14", "a15"],
    hidden := [],
    patches := [("a01", ⟨mkOid 1⟩), ("a02", ⟨mkOid 2⟩), ("a03", ⟨mkOid 3⟩),
                ("a04", ⟨mkOid 4⟩), ("a05", ⟨mkOid 5⟩), ("a06", ⟨mkOid 6⟩),
                ("a07", ⟨mkOid 7⟩), ("a08", ⟨mkOid 8⟩), ("a09", ⟨mkOid 9⟩),
                ("a10", ⟨mkOid 10⟩), ("a11", ⟨mkOid 11⟩), ("a12", ⟨mkOid 12⟩),
                ("a13", ⟨mkOid 13⟩), ("a14", ⟨mkOid 14⟩), ("a15", ⟨mkOid 15⟩)] }

/-- The parent set of `stack16`: head plus the 15 unapplied commits. -/
def pl16 : List Oid :=
  [mkOid 100, mkOid 1, mkOid 2, mkOid 3, mkOid 4, mkOid 5, mkOid 6, mkOid 7, mkOid 8,
   mkOid 9, mkOid 10, mkOid 11, mkOid 12, mkOid 13, mkOid 14, mkOid 15]

/-- C4 counterexample: committing `stack16` writes a simplified commit
with 0 parents and a final commit with 17 parents — more than
`MAX_PARENTS` — refuting the claim that no commit written by the core has
more than 16 parents. -/
theorem fanout_17_reachable :
    commitParentCounts (stack16.commit demoEnv none "m" WriteSt.init) = [0, 17] ∧
    MAX_PARENTS < 17 := by
  constructor
  · rw [commit_eval_noFanout stack16 demoEnv none "m" WriteSt.init pl16 rfl (by rfl)
      (by decide)]
    rfl
  · decide

/-- C5 counterexample: committing an empty snapshot needs no fanout
reduction (its parent set is the single `head`), yet TWO commits are
written, not one as the claim states. -/
theorem two_commits_without_fanout :
    commitCountOf ((Stack.new oidA).commit demoEnv none "m" WriteSt.init) = 2 ∧
    parentOidsOf (Stack.new oidA) none = some [oidA] ∧
    ([oidA] : List Oid).length ≤ MAX_PARENTS ∧
    ((2 : Nat) == 1) = false := by
  refine ⟨?_, rfl, by decide, by decide⟩
  rw [commit_eval_noFanout (Stack.new oidA) demoEnv none "m" WriteSt.init [oidA] rfl rfl
    (by decide)]
  rfl

/-- The final writer state of the demo run on the empty snapshot. -/
def demoFinal : WriteSt :=
  { nextFresh := 2,
    log := [Write.blobJson (encodeJson (Stack.new oidA)) (mkOid 7002),
            Write.tree [] (mkOid 7003),
            Write.tree [("stack.json", mkOid 7002), ("patches", mkOid 7003)] (mkOid 7003),
            Write.commit none "m" (mkOid 7003) [] (mkOid 1000000),
            Write.commit none "m" (mkOid 7003) [mkOid 1000000, oidA] (mkOid 1000001)] }

theorem demoRun_eval :
    (Stack.new oidA).commit demoEnv none "m" WriteSt.init = .ok (mkOid 1000001, demoFinal) := by
  rw [commit_eval_noFanout (Stack.new oidA) demoEnv none "m" WriteSt.init [oidA] rfl rfl
    (by decide)]
  rfl

theorem fanout_bound_witness :
    ∃ ws, demoFinal.log = WriteSt.init.log ++ ws ∧
      (∀ w ∈ ws.dropLast, w.isCommit = true → w.parentCount ≤ MAX_PARENTS) ∧
      (∀ w ∈ ws, w.isCommit = true → w.parentCount ≤ MAX_PARENTS + 1) :=
  fanout_bound (Stack.new oidA) demoEnv none "m" WriteSt.init (mkOid 1000001) demoFinal
    demoRun_eval

theorem commit_write_count_witness :
    ∃ (prevUsed : Option Stack) (pl : List Oid) (ws : List Write),
      parentOidsOf (Stack.new oidA) prevUsed = some pl ∧
      demoFinal.log = WriteSt.init.log ++ ws ∧
      commitWriteCount ws = 2 + groupIters pl.length ∧
      (pl.length ≤ MAX_PARENTS → commitWriteCount ws = 2) ∧
      (MAX_PARENTS < pl.length → 3 ≤ commitWriteCount ws) :=
  commit_write_count (Stack.new oidA) demoEnv none "m" WriteSt.init (mkOid 1000001) demoFinal
    demoRun_eval


/-! ## C9 — patch-meta blob reuse -/

theorem anyMatching_true (ps : Stack) (patchName : String) (oid : Oid) :
    ∀ names, (∀ n ∈ names, (ps.patchOid? n).isSome) → patchName ∈ names →
      ps.patchOid? patchName = some oid →
      anyMatching ps patchName oid names = some true := by
  intro names
  induction names with
  | nil => intro _ hmem _; simp at hmem
  | cons n rest ih =>
    intro hcov hmem hlook
    have hn := hcov n (List.mem_cons_self n rest)
    cases ho : ps.patchOid? n with
    | none => rw [ho] at hn; simp at hn
    | some o =>
      rw [anyMatching, ho]
      show (if n = patchName ∧ o = oid then some true
        else anyMatching ps patchName oid rest) = some true
      by_cases hcond : n = patchName ∧ o = oid
      · rw [if_pos hcond]
      · rw [if_neg hcond]
        refine ih (fun m hm => hcov m (List.mem_cons_of_mem _ hm)) ?_ hlook
        rcases List.mem_cons.mp hmem with rfl | hm2
        · exfalso
          apply hcond
          rw [ho] at hlook
          exact ⟨rfl, Option.some.inj hlook⟩
        · exact hm2

/-- C9: when the previous snapshot has a patch with the same name and the
same commit id, `make_patch_meta` returns the blob id found at
`patches/<name>` in the previous snapshot's tree verbatim (writing
nothing); when that tree lookup fails, it falls back to rebuilding the
blob. -/
theorem patch_meta_reuse (s prevState : Stack) (prevTree : TreeH) (env : Env) (st : WriteSt)
    (patchName : String) (oid : Oid)
    (hcov : prevState.KeysCovered)
    (hname : patchName ∈ prevState.allPatches)
    (hlook : prevState.patchOid? patchName = some oid) :
    (∀ entryId, prevTree.getPath ("patches/" ++ patchName) = some entryId →
      s.makePatchMeta env st patchName oid (some (prevState, prevTree)) = .ok (entryId, st)) ∧
    (prevTree.getPath ("patches/" ++ patchName) = none →
      s.makePatchMeta env st patchName oid (some (prevState, prevTree)) =
        buildPatchMeta env st oid) := by
  have hany : anyMatching prevState patchName oid prevState.allPatches = some true :=
    anyMatching_true prevState patchName oid prevState.allPatches
      (fun n hn => hcov n hn) hname hlook
  constructor
  · intro entryId hget
    show (match anyMatching prevState patchName oid prevState.allPatches with
      | none => Except.error Err.panicked
      | some true =>
        match prevTree.getPath ("patches/" ++ patchName) with
        | some entryId => Except.ok (entryId, st)
        | none => buildPatchMeta env st oid
      | some false => buildPatchMeta env st oid) = Except.ok (entryId, st)
    rw [hany]
    show (match prevTree.getPath ("patches/" ++ patchName) with
      | some entryId => Except.ok (entryId, st)
      | none => buildPatchMeta env st oid) = Except.ok (entryId, st)
    rw [hget]
  · intro hget
    show (match anyMatching prevState patchName oid prevState.allPatches with
      | none => Except.error Err.panicked
      | some true =>
        match prevTree.getPath ("patches/" ++ patchName) with
        | some entryId => Except.ok (entryId, st)
        | none => buildPatchMeta env st oid
      | some false => buildPatchMeta env st oid) = buildPatchMeta env st oid
    rw [hany]
    show (match prevTree.getPath ("patches/" ++ patchName) with
      | some entryId => Except.ok (entryId, st)
      | none => buildPatchMeta env st oid) = buildPatchMeta env st oid
    rw [hget]

/-- A previous snapshot tree resolving only `patches/q`. -/
def prevTreeEx : TreeH :=
  ⟨fun s => if s = "patches/q" then some (mkOid 77) else none⟩

theorem patch_meta_reuse_witness :
    sampleStack.makePatchMeta demoEnv WriteSt.init "q" oidC (some (prevStackEx, prevTreeEx)) =
      .ok (mkOid 77, WriteSt.init) :=
  (patch_meta_reuse sampleStack prevStackEx prevTreeEx demoEnv WriteSt.init "q" oidC
    (by decide) (by decide) (by decide)).1 (mkOid 77) rfl

/-! ## C8 — initialize -/

/-- C8 (amended): when the branch argument (given or defaulted) resolves
to a reference with a valid shorthand and the stack reference does not yet
exist, `initialize` constructs the empty snapshot `Stack::new` on the tip
of `repo.head()` — NOT the tip of the resolved branch reference, which is
used only to name `refs/stacks/<shorthand>` — and commits it under that
stack reference with message `"initialize"`. -/
theorem initStack_factoring (env : Env) (st : WriteSt) (b : Option String) (r : GitRef)
    (sh : String) (hr : GitRef)
    (href : getBranchRef env b = .ok r) (hsh : r.shorthand = some sh)
    (hex : env.refExists (stackRefnameFromBranchShorthand sh) = false)
    (hhead : env.headRef = some hr) :
    initStack env st b =
      (Stack.new hr.tip).commit env (some (stackRefnameFromBranchShorthand sh))
        "initialize" st >>= fun p => Except.ok p.2 := by
  unfold initStack
  rw [href]
  show ((match r.shorthand with
      | some sh2 => Except.ok sh2
      | none => Except.error Err.nonUtf8Name) >>= fun branchShorthand =>
      if env.refExists (stackRefnameFromBranchShorthand branchShorthand) then
        Except.error (Err.stackAlreadyInitialized branchShorthand)
      else
        (match env.headRef with
         | none => Except.error Err.gitNotFound
         | some h2 => Except.ok h2.tip) >>= fun headTip =>
        (Stack.new headTip).commit env
          (some (stackRefnameFromBranchShorthand branchShorthand)) "initialize" st >>=
          fun p => Except.ok p.2) = _
  rw [hsh]
  show (if env.refExists (stackRefnameFromBranchShorthand sh) then
      Except.error (Err.stackAlreadyInitialized sh)
    else
      (match env.headRef with
       | none => Except.error Err.gitNotFound
       | some h2 => Except.ok h2.tip) >>= fun headTip =>
      (Stack.new headTip).commit env
        (some (stackRefnameFromBranchShorthand sh)) "initialize" st >>=
        fun p => Except.ok p.2) = _
  rw [hex]
  show ((match env.headRef with
      | none => Except.error Err.gitNotFound
      | some h2 => Except.ok h2.tip) >>= fun headTip =>
      (Stack.new headTip).commit env
        (some (stackRefnameFromBranchShorthand sh)) "initialize" st >>=
        fun p => Except.ok p.2) = _
  rw [hhead]
  rfl

theorem initStack_factoring_witness :
    initStack demoEnv WriteSt.init (some "dev") =
      (Stack.new (mkOid 22)).commit demoEnv (some "refs/stacks/dev") "initialize"
        WriteSt.init >>= fun p => Except.ok p.2 :=
  initStack_factoring demoEnv WriteSt.init (some "dev")
    { shorthand := some "dev", isBranch := true, tip := mkOid 11 } "dev"
    { shorthand := some "master", isBranch := true, tip := mkOid 22 } rfl rfl rfl rfl

/-- The final writer state of running `initialize` on `demoEnv` with the
branch argument `"dev"`. -/
def c8Final : WriteSt :=
  { nextFresh := 2,
    log := [Write.blobJson (encodeJson (Stack.new (mkOid 22))) (mkOid 7002),
            Write.tree [] (mkOid 7003),
            Write.tree [("stack.json", mkOid 7002), ("patches", mkOid 7003)] (mkOid 7003),
            Write.commit none "initialize" (mkOid 7003) [] (mkOid 1000000),
            Write.commit (some "refs/stacks/dev") "initialize" (mkOid 7003)
              [mkOid 1000000, mkOid 22] (mkOid 1000001)] }

theorem c8run_eval : initStack demoEnv WriteSt.init (some "dev") = .ok c8Final := by
  show ((Stack.new (mkOid 22)).commit demoEnv (some "refs/stacks/dev") "initialize"
      WriteSt.init >>= fun p => Except.ok p.2) = _
  rw [commit_eval_noFanout (Stack.new (mkOid 22)) demoEnv (some "refs/stacks/dev")
    "initialize" WriteSt.init [mkOid 22] rfl rfl (by decide)]
  rfl

/-- The contents of the `stack.json` blobs in a write log. -/
def stackBlobContents (l : List Write) : List Json :=
  l.filterMap fun w =>
    match w with
    | .blobJson j _ => some j
    | _ => none

/-- The `head` field of an encoded snapshot document. -/
def jsonHeadStr : Json → Option String
  | .obj fields =>
    match fields.lookup "head" with
    | some (.str s) => some s
    | _ => none
  | _ => none

/-- C8 counterexample: with `HEAD` on `master` (tip `mkOid 22`) and the
named branch `dev` resolving to tip `mkOid 11`, `initialize dev` commits a
snapshot whose `head` is `mkOid 22` — the tip of `HEAD` — not the tip of
the resolved branch as the claim states. -/
theorem init_head_not_branch_tip :
    initStack demoEnv WriteSt.init (some "dev") = .ok c8Final ∧
    stackBlobContents c8Final.log = [encodeJson (Stack.new (mkOid 22))] ∧
    (demoEnv.resolveShort "dev").map GitRef.tip = some (mkOid 11) ∧
    demoEnv.headRef.map GitRef.tip = some (mkOid 22) ∧
    jsonHeadStr (encodeJson (Stack.new (mkOid 22))) = some (oidHex (mkOid 22)) ∧
    jsonHeadStr (encodeJson (Stack.new (mkOid 11))) = some (oidHex (mkOid 11)) ∧
    (oidHex (mkOid 22) == oidHex (mkOid 11)) = false :=
  ⟨c8run_eval, rfl, rfl, rfl, rfl, rfl, by decide⟩

end StGit
